import Mathlib

/-!
Verification of the feature-aggregation and scoring engine of the
gesture-SSE-assessment repository.

The development shallowly embeds the Python sources over exact rationals:

* `src/score_rules.py` — weighted, explainable per-user scoring
  (`score_user_row`, `score_users_rules`, normalization helpers);
* `src/find_user_features.py` — the independently duplicated scoring logic
  (`score_row`);
* `src/featurize.py` — event → session → user aggregation
  (`build_user_features`, `_mode_or_first`);
* the frame-level column behaviour of `score_users_rules` (missing feature
  columns added in place, four result columns appended).

Modelling conventions:
* pandas/python floats are modelled as `ℚ`; `round(x, n)` is exact decimal
  round-half-to-even (`pyround`);
* cells that the code explicitly treats as possibly missing
  (`pd.notnull`, `try: float(...)`) are modelled as `Option ℚ`;
* pandas float *division* keeps its IEEE behaviour for zero denominators
  (`PFloat`: value, ±infinity or NaN), because `featurize.py` relies on
  `.fillna(0)` to patch `0/0` only;
* `math.log1p` is external library code, not code of this repository; every
  definition that needs it takes an arbitrary function `lg : ℚ → ℚ` as a
  parameter, and theorems assume only the facts of `log1p` they use
  (monotone, `log1p 0 = 0`, `0 < log1p 1`).
-/

namespace GestureSSE

/-! ### Scoring data model (src/score_rules.py) -/

/-- One user row of the feature table, restricted to the fields read by
`score_user_row` (src/score_rules.py:63-108).  Counts and amounts are
rationals; `repeat_session_rate` and `days_since_last_event` are optional
because the code guards them with `pd.notnull` / `try: float(...)`. -/
structure Row where
  signups : ℚ
  calendar_bookings : ℚ
  demo_request_clicks : ℚ
  pricing_page_views : ℚ
  page_views : ℚ
  recent_pages_viewed : ℚ
  repeat_session_rate : Option ℚ
  account_balance_usd : ℚ
  days_since_last_event : Option ℚ
  deriving DecidableEq, Repr, Inhabited

/-- The `max_vals` dictionary built in `score_users_rules`
(src/score_rules.py:169-175); it always carries exactly these five keys. -/
structure MaxVals where
  page_views : ℚ
  pricing_page_views : ℚ
  demo_request_clicks : ℚ
  recent_pages_viewed : ℚ
  account_balance_usd : ℚ
  deriving DecidableEq, Repr, Inhabited

/-- The `feats` dictionary of normalized feature values built in
`score_user_row` (src/score_rules.py:64-108); it always carries exactly
these eight keys. -/
structure Feats where
  signups : ℚ
  calendar_bookings : ℚ
  demo_request_clicks : ℚ
  pricing_page_views : ℚ
  page_views : ℚ
  recent_pages_viewed : ℚ
  repeat_session_rate : ℚ
  account_balance_usd : ℚ
  deriving DecidableEq, Repr

/-- The thresholds dictionary (src/score_rules.py:28-32). -/
structure Thresholds where
  high : ℚ
  medium : ℚ
  deriving DecidableEq, Repr

/-- Result of scoring one row: the tuple returned by `score_user_row`
(src/score_rules.py:136).  `contribs` keeps the dictionary's insertion
order (= the iteration order of the weights dict). -/
structure ScoredResult where
  score : ℚ
  label : String
  explanation : String
  contribs : List (String × ℚ)
  deriving DecidableEq, Repr

/-- DEFAULT_WEIGHTS (src/score_rules.py:16-25), in dict insertion order.
0.30 = 3/10, 0.15 = 3/20, 0.08 = 2/25, 0.05 = 1/20, 0.02 = 1/50. -/
def DEFAULT_WEIGHTS : List (String × ℚ) :=
  [("signups", 3/10),
   ("calendar_bookings", 3/10),
   ("demo_request_clicks", 3/20),
   ("pricing_page_views", 2/25),
   ("page_views", 1/20),
   ("repeat_session_rate", 1/20),
   ("account_balance_usd", 1/20),
   ("recent_pages_viewed", 1/50)]

/-- DEFAULT_THRESHOLDS (src/score_rules.py:28-32). -/
def DEFAULT_THRESHOLDS : Thresholds := ⟨70, 40⟩

/-- Round-half-to-even to an integer, Python's `round` on exact values. -/
def roundHalfEven (x : ℚ) : ℤ :=
  let f := ⌊x⌋
  let r := x - f
  if r < 1/2 then f
  else if 1/2 < r then f + 1
  else if f % 2 = 0 then f else f + 1

/-- Python's `round(x, n)` on exact decimal values. -/
def pyround (x : ℚ) (n : ℕ) : ℚ := (roundHalfEven (x * 10 ^ n) : ℚ) / 10 ^ n

/-- `_normalize_count` (src/score_rules.py:35-40): `val/max_val` when
`max_val` is truthy and positive, else 0.  All inputs in this model are
numeric, so the `except` branch is unreachable. -/
def normalize_count (val maxv : ℚ) : ℚ := if 0 < maxv then val / maxv else 0

/-- `_log_normalize` (src/score_rules.py:43-48):
`log1p(val)/log1p(max_val)` when `max_val` is truthy and positive, else 0.
`lg` stands for the library function `math.log1p`.  When `lg maxv = 0`
Python raises `ZeroDivisionError`, caught to `0.0`; rational division by
zero is `0` as well, so the value agrees. -/
def log_normalize (lg : ℚ → ℚ) (val maxv : ℚ) : ℚ :=
  if 0 < maxv then lg val / lg maxv else 0

/-- The recency boost computed inline in `score_user_row`
(src/score_rules.py:98-105): `max(0, (30 - days)/30)` when the value
parses and is ≤ 30, else 0 (including the `except: pass` branch for a
missing value). -/
def recencyBoost : Option ℚ → ℚ
  | none => 0
  | some d => if d ≤ 30 then max 0 ((30 - d) / 30) else 0

/-- Lookup in the `feats` dict: `feats.get(feature, 0.0)`
(src/score_rules.py:115). -/
def featGet (f : Feats) : String → ℚ := fun s =>
  if s = "signups" then f.signups
  else if s = "calendar_bookings" then f.calendar_bookings
  else if s = "demo_request_clicks" then f.demo_request_clicks
  else if s = "pricing_page_views" then f.pricing_page_views
  else if s = "page_views" then f.page_views
  else if s = "recent_pages_viewed" then f.recent_pages_viewed
  else if s = "repeat_session_rate" then f.repeat_session_rate
  else if s = "account_balance_usd" then f.account_balance_usd
  else 0

/-- Normalized feature dictionary of `score_user_row`
(src/score_rules.py:63-108), including the recency boost folded into
`repeat_session_rate` (line 108). -/
def normFeats (lg : ℚ → ℚ) (mv : MaxVals) (r : Row) : Feats :=
  { signups := if 0 < r.signups then 1 else 0
    calendar_bookings := if 0 < r.calendar_bookings then 1 else 0
    demo_request_clicks := normalize_count r.demo_request_clicks mv.demo_request_clicks
    pricing_page_views := normalize_count r.pricing_page_views mv.pricing_page_views
    page_views := normalize_count r.page_views mv.page_views
    recent_pages_viewed := normalize_count r.recent_pages_viewed mv.recent_pages_viewed
    repeat_session_rate :=
      min 1 (r.repeat_session_rate.getD 0 + (1/4) * recencyBoost r.days_since_last_event)
    account_balance_usd := log_normalize lg r.account_balance_usd mv.account_balance_usd }

/-- `raw_score` accumulated in the weights loop (src/score_rules.py:111-118). -/
def rawScore (w : List (String × ℚ)) (f : Feats) : ℚ :=
  (w.map (fun p => p.2 * featGet f p.1)).sum

/-- The `contribs` dict (src/score_rules.py:111-117): per-feature
contribution in percentage points, rounded to 3 decimals, in weights
iteration order. -/
def contribsOf (w : List (String × ℚ)) (f : Feats) : List (String × ℚ) :=
  w.map (fun p => (p.1, pyround (p.2 * featGet f p.1 * 100) 3))

/-- Stable insertion of a pair into a list sorted descending by value:
the inserted element goes before any later element of equal value. -/
def insertDesc (a : String × ℚ) : List (String × ℚ) → List (String × ℚ)
  | [] => [a]
  | q :: s => if q.2 ≤ a.2 then a :: q :: s else q :: insertDesc a s

/-- Stable descending sort by value.  Python's `sorted(..., reverse=True)`
(src/score_rules.py:132) is a stable descending sort; stable sorts by the
same key coincide, so insertion sort is a faithful model. -/
def sortDesc (l : List (String × ℚ)) : List (String × ℚ) := l.foldr insertDesc []

/-- Rendering of `f"{pts:.1f}"` for the nonnegative contribution points
that reach an explanation. -/
def fmt1 (q : ℚ) : String :=
  let r := roundHalfEven (q * 10)
  toString (r / 10) ++ "." ++ toString (r % 10)

/-- The explanation string (src/score_rules.py:131-134): top 3
contributors by points (stable descending), keeping only strictly
positive ones, else "No strong signals". -/
def explanationOf (contribs : List (String × ℚ)) : String :=
  let top3 := ((sortDesc contribs).take 3).filter (fun p => decide (0 < p.2))
  if top3 = [] then "No strong signals"
  else String.intercalate " + " (top3.map (fun p => p.1 ++ " (+" ++ fmt1 p.2 ++ " pts)"))

/-- `score_user_row` (src/score_rules.py:51-136). -/
def score_user_row (lg : ℚ → ℚ) (mv : MaxVals) (w : List (String × ℚ))
    (th : Thresholds) (r : Row) : ScoredResult :=
  let f := normFeats lg mv r
  let sc := pyround (rawScore w f * 100) 2
  { score := sc
    label := if th.high ≤ sc then "high" else if th.medium ≤ sc then "medium" else "low"
    explanation := explanationOf (contribsOf w f)
    contribs := contribsOf w f }

/-- Maximum of a nonempty pandas column (`series.max()`); `0` stands for
the NaN produced on an empty column (it is then absorbed by the outer
`max(1, ·)` exactly as Python's `max(1, nan) = 1`). -/
def pandasMax : List ℚ → ℚ
  | [] => 0
  | a :: l => l.foldl max a

/-- The `max_vals` computation of `score_users_rules`
(src/score_rules.py:168-175): population maxima floored at 1 (1.0 for the
monetary column). -/
def computeMaxVals (df : List Row) : MaxVals :=
  { page_views := max 1 (pandasMax (df.map (·.page_views)))
    pricing_page_views := max 1 (pandasMax (df.map (·.pricing_page_views)))
    demo_request_clicks := max 1 (pandasMax (df.map (·.demo_request_clicks)))
    recent_pages_viewed := max 1 (pandasMax (df.map (·.recent_pages_viewed)))
    account_balance_usd := max 1 (pandasMax (df.map (·.account_balance_usd))) }

/-- Row-level `score_users_rules` (src/score_rules.py:139-193): defaulted
weights/thresholds, population maxima from the full batch, then each row
scored.  (Column bookkeeping is modelled separately at frame level.) -/
def score_users_rules (lg : ℚ → ℚ) (weights : Option (List (String × ℚ)))
    (thresholds : Option Thresholds) (df : List Row) : List ScoredResult :=
  let w := weights.getD DEFAULT_WEIGHTS
  let th := thresholds.getD DEFAULT_THRESHOLDS
  let mv := computeMaxVals df
  df.map (score_user_row lg mv w th)

/-! ### The duplicated scoring logic of src/find_user_features.py

`find_user_features.py` re-defines the same weights, normalizers and
per-row scoring inline (lines 139-233).  The definitions below are its
own copies, embedded separately so that claim C8 (behavioural
equivalence) compares two genuinely distinct definitions. -/

namespace FindUF

/-- The local `weights` dict of find_user_features.py:140-149, in
insertion order. -/
def weights : List (String × ℚ) :=
  [("signups", 3/10),
   ("calendar_bookings", 3/10),
   ("demo_request_clicks", 3/20),
   ("pricing_page_views", 2/25),
   ("page_views", 1/20),
   ("repeat_session_rate", 1/20),
   ("account_balance_usd", 1/20),
   ("recent_pages_viewed", 1/50)]

/-- The local `_normalize_count` copy (find_user_features.py:165-169). -/
def normalize_count (val maxv : ℚ) : ℚ := if 0 < maxv then val / maxv else 0

/-- The local `_log_normalize` copy (find_user_features.py:171-176). -/
def log_normalize (lg : ℚ → ℚ) (val maxv : ℚ) : ℚ :=
  if 0 < maxv then lg val / lg maxv else 0

/-- The `feats` dict of `score_row` (find_user_features.py:178-201).  The
`if "..." in max_vals` guards are identically true because `max_vals` is
built with exactly those five keys (lines 157-163), so they are not
branches of the model. -/
def feats (lg : ℚ → ℚ) (mv : MaxVals) (r : Row) : Feats :=
  { signups := if 0 < r.signups then 1 else 0
    calendar_bookings := if 0 < r.calendar_bookings then 1 else 0
    demo_request_clicks := normalize_count r.demo_request_clicks mv.demo_request_clicks
    pricing_page_views := normalize_count r.pricing_page_views mv.pricing_page_views
    page_views := normalize_count r.page_views mv.page_views
    recent_pages_viewed := normalize_count r.recent_pages_viewed mv.recent_pages_viewed
    repeat_session_rate :=
      min 1 (r.repeat_session_rate.getD 0 + (1/4) * recencyBoost r.days_since_last_event)
    account_balance_usd := log_normalize lg r.account_balance_usd mv.account_balance_usd }

/-- `score_row` (find_user_features.py:178-233): raw weighted sum,
3-decimal contribution points, 2-decimal score, hard-coded 70/40 labels,
top-3 explanation. -/
def score_row (lg : ℚ → ℚ) (mv : MaxVals) (r : Row) : ScoredResult :=
  let f := feats lg mv r
  let contribs := weights.map (fun p => (p.1, pyround (p.2 * featGet f p.1 * 100) 3))
  let raw := (weights.map (fun p => p.2 * featGet f p.1)).sum
  let sc := pyround (raw * 100) 2
  { score := sc
    label := if (70 : ℚ) ≤ sc then "high" else if (40 : ℚ) ≤ sc then "medium" else "low"
    explanation := explanationOf contribs
    contribs := contribs }

end FindUF

/-! ### Feature aggregation (src/featurize.py)

`build_user_features` groups raw events by (user, session), then by user.
pandas sorts the group keys; the model keeps them in first-occurrence
order instead, which leaves every per-user aggregate of interest
unchanged (sums, maxima, counts and rates are key-order independent, and
no claim concerns the inter-user row order or the "first" demographic
snapshot fields). -/

/-- A pandas float cell as produced by dividing integer columns: either a
value, an infinity (x/0 with x≠0) or NaN (0/0). -/
inductive PFloat where
  | val (q : ℚ)
  | posInf
  | negInf
  | nan
  deriving DecidableEq, Repr, Inhabited

/-- IEEE division of two finite values, as pandas performs it on the
`repeat_sessions / total_sessions` style columns: zero denominators give
an infinity or NaN instead of raising. -/
def pdiv (a b : ℚ) : PFloat :=
  if b ≠ 0 then .val (a / b)
  else if 0 < a then .posInf
  else if a < 0 then .negInf
  else .nan

/-- `.fillna(0)`: replaces NaN (only) by 0. -/
def fillna0 : PFloat → PFloat
  | .nan => .val 0
  | x => x

/-- The rate computation of build_user_features
(src/featurize.py:124-127): `(numerator / total_sessions).fillna(0)`. -/
def computeRate (num den : ℚ) : PFloat := fillna0 (pdiv num den)

/-- One raw event row (src/featurize.py reads these columns; the
`time_on_page_sec` / `scroll_depth_pct` sanity fills feed no aggregated
output and are omitted).  `timestamp` is `none` for an unparseable
timestamp (`errors="coerce"` → NaT); flags are the 0/1 integers of the
CSV. -/
structure Event where
  event_id : ℕ
  user_id : ℕ
  username : String
  session_id : ℕ
  timestamp : Option ℚ
  event_type : String
  location_city : String
  device : String
  is_repeat_session : ℕ
  session_number : ℕ
  account_balance_usd : ℚ
  recent_pages_viewed : ℚ
  recent_pricing_views : ℚ
  gender : String
  bounce_flag : ℕ
  spam_flag : ℕ
  deriving DecidableEq, Repr, Inhabited

/-- One row of `session_df` (src/featurize.py:49-66). -/
structure Session where
  user_id : ℕ
  session_id : ℕ
  username : String
  location_city : String
  gender : String
  account_balance_usd : ℚ
  recent_pages_viewed : ℚ
  recent_pricing_views : ℚ
  is_repeat_session : ℕ
  session_number : ℕ
  bounce_flag : ℕ
  spam_flag : ℕ
  primary_device : Option String
  session_events : ℕ
  session_last_ts : Option ℚ
  deriving DecidableEq, Repr, Inhabited

/-- One row of the user-level output of `build_user_features`
(src/featurize.py:99-137). -/
structure UserRow where
  user_id : ℕ
  username : String
  location_city : String
  gender : String
  primary_device : Option String
  account_balance_usd : ℚ
  recent_pages_viewed : ℚ
  recent_pricing_views : ℚ
  total_sessions : ℕ
  repeat_sessions : ℕ
  bounces : ℕ
  spam_sessions : ℕ
  last_event_ts : Option ℚ
  page_views : ℕ
  pricing_page_views : ℕ
  search_events : ℕ
  chat_messages : ℕ
  doc_downloads : ℕ
  demo_request_clicks : ℕ
  signups : ℕ
  calendar_bookings : ℕ
  total_events : ℕ
  repeat_session_rate : PFloat
  bounce_rate : PFloat
  spam_rate : PFloat
  days_since_last_event : Option ℚ
  converted : ℕ
  deriving DecidableEq, Repr, Inhabited

/-- Fuelled distinct-keys extraction (first-occurrence order).  The fuel
makes the recursion structural so the kernel can evaluate it. -/
def keysOfAux [DecidableEq α] : ℕ → List α → List α
  | 0, _ => []
  | _, [] => []
  | n + 1, a :: l => a :: keysOfAux n (l.filter (fun b => decide (b ≠ a)))

/-- Distinct values of a list in first-occurrence order: the group keys
of a pandas `groupby` (which sorts them; see section comment) and the
input to `nunique`. -/
def keysOf [DecidableEq α] (l : List α) : List α := keysOfAux l.length l

/-- Codepoint-lexicographic strict order on strings, the order Python
uses to compare the object values that `Series.mode()` sorts. -/
def lexLt : List Char → List Char → Bool
  | [], [] => false
  | [], _ :: _ => true
  | _ :: _, [] => false
  | a :: as, b :: bs =>
    if a.toNat < b.toNat then true
    else if b.toNat < a.toNat then false
    else lexLt as bs

/-- Strict string order via `lexLt`. -/
def strLt (a b : String) : Bool := lexLt a.data b.data

/-- Maximum of a list of naturals (pandas `max` over a nonempty integer
group; the base 0 is never the result on the 0/1 flag columns of a
nonempty group). -/
def natMax (l : List ℕ) : ℕ := l.foldr max 0

/-- Highest frequency among the distinct values of `l`. -/
def maxCount (l : List String) : ℕ := natMax ((keysOf l).map (fun v => l.count v))

/-- The most-frequent values of `l`, in first-occurrence order.
`Series.mode()` returns exactly this set — but sorted ascending. -/
def candidates (l : List String) : List String :=
  (keysOf l).filter (fun v => decide (l.count v = maxCount l))

/-- Least element of a list under `strLt` (the head of the ascending-
sorted list that `Series.mode()` returns). -/
def listMinStr : List String → Option String
  | [] => none
  | a :: l => some (l.foldl (fun m b => if strLt b m then b else m) a)

/-- `_mode_or_first` (src/featurize.py:12-19) applied to a column that
may hold missing values: `s.mode()` drops NaN and returns the
most-frequent values sorted ascending; `m.iloc[0]` is therefore the
*least* most-frequent value.  If the mode is empty the first element of
the column (possibly missing) is returned, and `None` for an empty
column. -/
def mode_or_first (l : List (Option String)) : Option String :=
  match listMinStr (candidates (l.filterMap id)) with
  | some m => some m
  | none => (l.headD none)

/-- Maximum of optional timestamps, skipping missing ones the way pandas
`max` skips NaT; `none` when all are missing. -/
def omax : Option ℚ → Option ℚ → Option ℚ
  | none, y => y
  | some a, none => some a
  | some a, some b => some (max a b)

/-- Fold of `omax` over a column. -/
def optMax (l : List (Option ℚ)) : Option ℚ := l.foldr omax none

/-- The session row for group key `k` with event group `g`
(src/featurize.py:49-66): first-value snapshots, max-aggregated flags,
device mode, event count and last timestamp. -/
def mkSession (k : ℕ × ℕ) (g : List Event) : Session :=
  { user_id := k.1
    session_id := k.2
    username := (g.map (·.username)).headD ""
    location_city := (g.map (·.location_city)).headD ""
    gender := (g.map (·.gender)).headD ""
    account_balance_usd := (g.map (·.account_balance_usd)).headD 0
    recent_pages_viewed := (g.map (·.recent_pages_viewed)).headD 0
    recent_pricing_views := (g.map (·.recent_pricing_views)).headD 0
    is_repeat_session := natMax (g.map (·.is_repeat_session))
    session_number := natMax (g.map (·.session_number))
    bounce_flag := natMax (g.map (·.bounce_flag))
    spam_flag := natMax (g.map (·.spam_flag))
    primary_device := mode_or_first (g.map (fun e => some e.device))
    session_events := g.length
    session_last_ts := optMax (g.map (·.timestamp)) }

/-- `session_df` (src/featurize.py:49-66): one row per distinct
(user_id, session_id), events grouped in original order. -/
def buildSessionRows (events : List Event) : List Session :=
  (keysOf (events.map (fun e => (e.user_id, e.session_id)))).map
    (fun k => mkSession k
      (events.filter (fun e => decide (e.user_id = k.1 ∧ e.session_id = k.2))))

/-- Per-user count of one event type (src/featurize.py:80-96: a 0/1
indicator column summed per user). -/
def countEv (events : List Event) (u : ℕ) (t : String) : ℕ :=
  (events.filter (fun e => decide (e.user_id = u ∧ e.event_type = t))).length

/-- The user-level row for user `u` (src/featurize.py:99-135): session
aggregates, merged event counts, guarded rates, recency and the
conversion label. -/
def mkUserRow (now : ℚ) (events : List Event) (sessions : List Session) (u : ℕ) : UserRow :=
  let su := sessions.filter (fun s => decide (s.user_id = u))
  let totalSessions := (keysOf (su.map (·.session_id))).length
  let repeatSessions := (su.map (·.is_repeat_session)).sum
  let bounces := (su.map (·.bounce_flag)).sum
  let spamSessions := (su.map (·.spam_flag)).sum
  let lastTs := optMax (su.map (·.session_last_ts))
  let signups := countEv events u "signup"
  let bookings := countEv events u "calendar_booking"
  { user_id := u
    username := (su.map (·.username)).headD ""
    location_city := (su.map (·.location_city)).headD ""
    gender := (su.map (·.gender)).headD ""
    primary_device := mode_or_first (su.map (·.primary_device))
    account_balance_usd := (su.map (·.account_balance_usd)).headD 0
    recent_pages_viewed := (su.map (·.recent_pages_viewed)).headD 0
    recent_pricing_views := (su.map (·.recent_pricing_views)).headD 0
    total_sessions := totalSessions
    repeat_sessions := repeatSessions
    bounces := bounces
    spam_sessions := spamSessions
    last_event_ts := lastTs
    page_views := countEv events u "page_view"
    pricing_page_views := countEv events u "pricing_page_view"
    search_events := countEv events u "search"
    chat_messages := countEv events u "chat_message"
    doc_downloads := countEv events u "doc_download"
    demo_request_clicks := countEv events u "demo_request_click"
    signups := signups
    calendar_bookings := bookings
    total_events := (events.filter (fun e => decide (e.user_id = u))).length
    repeat_session_rate := computeRate repeatSessions totalSessions
    bounce_rate := computeRate bounces totalSessions
    spam_rate := computeRate spamSessions totalSessions
    days_since_last_event := lastTs.map (fun t => (now - t) / (3600 * 24))
    converted := if 0 < signups ∧ 0 < bookings then 1 else 0 }

/-- `build_user_features` (src/featurize.py:22-137) with the wall-clock
instant `now` as an explicit parameter (seconds; timestamps are seconds,
`days_since_last_event` is fractional days). -/
def build_user_features (now : ℚ) (events : List Event) : List UserRow :=
  let sessions := buildSessionRows events
  (keysOf (sessions.map (·.user_id))).map (mkUserRow now events sessions)

/-- Modelled from the spec: the tie-break rule the spec states for
`primary_device` (§3 and §9 of spec.md) — an ordered-frequency map whose
winner is the highest-count value, ties broken by earliest first
occurrence.  `candidates` is in first-occurrence order, so its head is
that winner.  This definition exists only to exhibit the divergence from
the code's `_mode_or_first`. -/
def specFirstSeenMode (l : List (Option String)) : Option String :=
  match candidates (l.filterMap id) with
  | c :: _ => some c
  | [] => l.headD none

/-! ### Frame-level behaviour of score_users_rules (claim C10)

`score_users_rules` receives a pandas DataFrame.  The loop at
src/score_rules.py:162-166 assigns `user_df[feat] = 0` for each weighted
feature column that is absent — mutating the *caller's* frame — and only
then takes `result_df = user_df.copy()` and appends the four result
columns.  The model represents a frame as an ordered association list of
named columns and returns the pair (mutated input, result). -/

/-- A cell of the feature frame.  `obj` stands for the
`json.dumps(contribs)` cell: the serialized object is modelled
structurally (equal ordered dicts serialize equally). -/
inductive Cell where
  | num (q : ℚ)
  | str (s : String)
  | obj (kv : List (String × ℚ))
  deriving DecidableEq, Repr, Inhabited

/-- A DataFrame: named columns in order, each a list of cells (one per
row, all the same length in a well-formed frame). -/
structure Frame where
  cols : List (String × List Cell)
  deriving DecidableEq, Repr, Inhabited

/-- Column names in order. -/
def Frame.names (df : Frame) : List String := df.cols.map (·.1)

/-- Number of rows (`len(df)`): length of the first column. -/
def Frame.nrows (df : Frame) : ℕ :=
  match df.cols with
  | [] => 0
  | c :: _ => c.2.length

/-- `df[name] = vals`: replace the column in place if the name exists,
else append it. -/
def Frame.setCol (df : Frame) (name : String) (vals : List Cell) : Frame :=
  if name ∈ df.names then
    ⟨df.cols.map (fun c => if c.1 = name then (name, vals) else c)⟩
  else ⟨df.cols ++ [(name, vals)]⟩

/-- Numeric view of a cell (scoring columns hold numeric cells in a
well-formed feature table). -/
def Cell.num? : Cell → Option ℚ
  | .num q => some q
  | _ => none

/-- Cell at (column `name`, row `i`), if the column exists. -/
def Frame.cellAt (df : Frame) (name : String) (i : ℕ) : Option Cell :=
  (df.cols.lookup name).bind (fun col => col.get? i)

/-- `row.get(name, 0)` on a numeric column. -/
def Frame.numAt (df : Frame) (name : String) (i : ℕ) : ℚ :=
  ((df.cellAt name i).bind Cell.num?).getD 0

/-- `row.get(name)` on an optional numeric column. -/
def Frame.optNumAt (df : Frame) (name : String) (i : ℕ) : Option ℚ :=
  (df.cellAt name i).bind Cell.num?

/-- The view of frame row `i` that `score_user_row` reads
(src/score_rules.py:179: `for _, row in user_df.iterrows()`). -/
def Frame.rowAt (df : Frame) (i : ℕ) : Row :=
  { signups := df.numAt "signups" i
    calendar_bookings := df.numAt "calendar_bookings" i
    demo_request_clicks := df.numAt "demo_request_clicks" i
    pricing_page_views := df.numAt "pricing_page_views" i
    page_views := df.numAt "page_views" i
    recent_pages_viewed := df.numAt "recent_pages_viewed" i
    repeat_session_rate := df.optNumAt "repeat_session_rate" i
    account_balance_usd := df.numAt "account_balance_usd" i
    days_since_last_event := df.optNumAt "days_since_last_event" i }

/-- The required-features loop (src/score_rules.py:162-166): for each
weight key absent from the frame, add a column of zeros in place. -/
def ensureRequired (w : List (String × ℚ)) (df : Frame) : Frame :=
  w.foldl (fun d p =>
    if p.1 ∈ d.names then d
    else d.setCol p.1 (List.replicate d.nrows (Cell.num 0))) df

/-- Frame-level `score_users_rules` (src/score_rules.py:139-193).
Returns (caller's frame after the in-place mutation, result frame). -/
def score_users_rules_frame (lg : ℚ → ℚ) (w : List (String × ℚ)) (th : Thresholds)
    (df₀ : Frame) : Frame × Frame :=
  let df := ensureRequired w df₀
  let rows := (List.range df.nrows).map df.rowAt
  let mv := computeMaxVals rows
  let results := rows.map (score_user_row lg mv w th)
  let r1 := df.setCol "score" (results.map (fun s => Cell.num s.score))
  let r2 := r1.setCol "score_label" (results.map (fun s => Cell.str s.label))
  let r3 := r2.setCol "explanation" (results.map (fun s => Cell.str s.explanation))
  let r4 := r3.setCol "feature_contributions" (results.map (fun s => Cell.obj s.contribs))
  (df, r4)

/-! ### Well-formedness and concrete sample data -/

/-- Well-formedness of a feature row as produced by the aggregation
stage: count features and the balance are nonnegative and the stored
repeat-session rate (when present) is nonnegative.  These are the only
facts about a row that the score-bound argument needs. -/
def WFRow (r : Row) : Prop :=
  0 ≤ r.demo_request_clicks ∧ 0 ≤ r.pricing_page_views ∧ 0 ≤ r.page_views ∧
  0 ≤ r.recent_pages_viewed ∧ 0 ≤ r.account_balance_usd ∧ 0 ≤ r.repeat_session_rate.getD 0

instance (r : Row) : Decidable (WFRow r) := by unfold WFRow; infer_instance

/-- A sample feature row. -/
def exRow : Row :=
  { signups := 1, calendar_bookings := 0, demo_request_clicks := 2,
    pricing_page_views := 1, page_views := 3, recent_pages_viewed := 0,
    repeat_session_rate := some 1, account_balance_usd := 10,
    days_since_last_event := some 10 }

/-- A sample raw event, the template for the concrete scenarios below. -/
def baseEvent : Event :=
  { event_id := 1, user_id := 1, username := "u", session_id := 1,
    timestamp := some 0, event_type := "page_view", location_city := "c",
    device := "mobile", is_repeat_session := 0, session_number := 1,
    account_balance_usd := 0, recent_pages_viewed := 0, recent_pricing_views := 0,
    gender := "f", bounce_flag := 0, spam_flag := 0 }

/-- Second event of the device-tie scenario: same user and session, a
different device first seen later in event order. -/
def tieEvent : Event := { baseEvent with event_id := 2, device := "desktop" }

/-- Bounce scenario, session 1: two events, both flagged as bounces. -/
def bEvent1 : Event := { baseEvent with event_id := 1, session_id := 1, bounce_flag := 1 }

/-- Bounce scenario, session 1, second flagged event. -/
def bEvent2 : Event := { baseEvent with event_id := 2, session_id := 1, bounce_flag := 1 }

/-- Bounce scenario, session 2: a single unflagged event. -/
def bEvent3 : Event := { baseEvent with event_id := 3, session_id := 2, bounce_flag := 0 }

/-- A sample two-column feature frame for the frame-effect scenario. -/
def exFrame : Frame := ⟨[("user_id", [Cell.num 1]), ("page_views", [Cell.num 3])]⟩

/-! ### Generic lemmas: rounding, normalization, folds -/

theorem roundHalfEven_nonneg {x : ℚ} (hx : 0 ≤ x) : 0 ≤ roundHalfEven x := by
  unfold roundHalfEven
  have hf : (0 : ℤ) ≤ ⌊x⌋ := Int.le_floor.mpr (by exact_mod_cast hx)
  dsimp only
  split_ifs <;> omega

theorem roundHalfEven_le {x : ℚ} {C : ℤ} (h : x ≤ (C : ℚ)) : roundHalfEven x ≤ C := by
  unfold roundHalfEven
  have hfl : (⌊x⌋ : ℚ) ≤ x := Int.floor_le x
  have hf : ⌊x⌋ ≤ C := by
    have := Int.floor_le_floor (α := ℚ) h
    simpa using this
  dsimp only
  split_ifs with h1 h2 h3
  · exact hf
  · have hx2 : (⌊x⌋ : ℚ) + 1/2 < x := by linarith
    have : (⌊x⌋ : ℚ) < (C : ℚ) := by linarith
    have : ⌊x⌋ < C := by exact_mod_cast this
    omega
  · exact hf
  · have hx2 : (⌊x⌋ : ℚ) + 1/2 ≤ x := by
      have : ¬ (x - ⌊x⌋ < 1/2) := h1
      linarith [not_lt.mp this]
    have : (⌊x⌋ : ℚ) < (C : ℚ) := by linarith
    have : ⌊x⌋ < C := by exact_mod_cast this
    omega

theorem abs_roundHalfEven_sub (x : ℚ) : |(roundHalfEven x : ℚ) - x| ≤ 1/2 := by
  unfold roundHalfEven
  have h0 : (⌊x⌋ : ℚ) ≤ x := Int.floor_le x
  have h1 : x < ⌊x⌋ + 1 := Int.lt_floor_add_one x
  dsimp only
  split_ifs with ha hb hc <;> rw [abs_le] <;> push_cast <;> constructor <;>
    first
      | linarith
      | linarith [not_lt.mp ha]
      | linarith [not_lt.mp hb]

theorem pyround_nonneg {x : ℚ} (n : ℕ) (hx : 0 ≤ x) : 0 ≤ pyround x n := by
  unfold pyround
  have h10 : (0 : ℚ) < 10 ^ n := by positivity
  have : (0 : ℤ) ≤ roundHalfEven (x * 10 ^ n) :=
    roundHalfEven_nonneg (by positivity)
  have : (0 : ℚ) ≤ (roundHalfEven (x * 10 ^ n) : ℚ) := by exact_mod_cast this
  positivity

theorem pyround_le {x : ℚ} {C : ℤ} (n : ℕ) (h : x ≤ (C : ℚ)) (hC : 0 ≤ C) :
    pyround x n ≤ (C : ℚ) := by
  unfold pyround
  have h10 : (0 : ℚ) < 10 ^ n := by positivity
  have hup : x * 10 ^ n ≤ ((C * 10 ^ n : ℤ) : ℚ) := by
    push_cast
    exact mul_le_mul_of_nonneg_right h (le_of_lt h10)
  have hint : roundHalfEven (x * 10 ^ n) ≤ C * 10 ^ n := roundHalfEven_le hup
  have hq : (roundHalfEven (x * 10 ^ n) : ℚ) ≤ (C : ℚ) * 10 ^ n := by exact_mod_cast hint
  rw [div_le_iff h10]
  exact hq

theorem abs_pyround_sub_le (x : ℚ) (n : ℕ) : |pyround x n - x| ≤ 1 / (2 * 10 ^ n) := by
  unfold pyround
  have h10 : (0 : ℚ) < 10 ^ n := by positivity
  have h := abs_roundHalfEven_sub (x * 10 ^ n)
  have hrw : (roundHalfEven (x * 10 ^ n) : ℚ) / 10 ^ n - x
      = ((roundHalfEven (x * 10 ^ n) : ℚ) - x * 10 ^ n) / 10 ^ n := by
    field_simp
    ring
  rw [hrw, abs_div, abs_of_pos h10]
  rw [div_le_div_iff h10 (by positivity)]
  calc |(roundHalfEven (x * 10 ^ n) : ℚ) - x * 10 ^ n| * (2 * 10 ^ n)
      ≤ (1/2) * (2 * 10 ^ n) := by
        exact mul_le_mul_of_nonneg_right h (by positivity)
    _ = 1 * 10 ^ n := by ring

theorem featGet_signups (f : Feats) : featGet f "signups" = f.signups := rfl

theorem featGet_calendar (f : Feats) : featGet f "calendar_bookings" = f.calendar_bookings := rfl

theorem featGet_demo (f : Feats) : featGet f "demo_request_clicks" = f.demo_request_clicks := rfl

theorem featGet_pricing (f : Feats) : featGet f "pricing_page_views" = f.pricing_page_views := rfl

theorem featGet_pages (f : Feats) : featGet f "page_views" = f.page_views := rfl

theorem featGet_recent (f : Feats) : featGet f "recent_pages_viewed" = f.recent_pages_viewed := rfl

theorem featGet_rsr (f : Feats) : featGet f "repeat_session_rate" = f.repeat_session_rate := rfl

theorem featGet_balance (f : Feats) : featGet f "account_balance_usd" = f.account_balance_usd := rfl

theorem normalize_count_nonneg {v m : ℚ} (hv : 0 ≤ v) : 0 ≤ normalize_count v m := by
  unfold normalize_count
  split_ifs with h
  · positivity
  · exact le_refl 0

theorem normalize_count_le_one {v m : ℚ} (hvm : v ≤ m) : normalize_count v m ≤ 1 := by
  unfold normalize_count
  split_ifs with h
  · exact (div_le_one h).mpr hvm
  · norm_num

theorem log_normalize_nonneg {lg : ℚ → ℚ} {v m : ℚ} (hm : Monotone lg) (h0 : lg 0 = 0)
    (h1 : 0 < lg 1) (hv : 0 ≤ v) (hm1 : 1 ≤ m) : 0 ≤ log_normalize lg v m := by
  unfold log_normalize
  rw [if_pos (by linarith : (0 : ℚ) < m)]
  have hden : 0 < lg m := lt_of_lt_of_le h1 (hm hm1)
  have hnum : 0 ≤ lg v := h0 ▸ hm hv
  positivity

theorem log_normalize_le_one {lg : ℚ → ℚ} {v m : ℚ} (hm : Monotone lg) (h0 : lg 0 = 0)
    (h1 : 0 < lg 1) (hv : 0 ≤ v) (hvm : v ≤ m) (hm1 : 1 ≤ m) :
    log_normalize lg v m ≤ 1 := by
  unfold log_normalize
  split_ifs with h
  · have hden : 0 < lg m := lt_of_lt_of_le h1 (hm hm1)
    exact (div_le_one hden).mpr (hm hvm)
  · norm_num

theorem recencyBoost_nonneg (d : Option ℚ) : 0 ≤ recencyBoost d := by
  unfold recencyBoost
  cases d with
  | none => exact le_refl 0
  | some v =>
    dsimp only
    split_ifs
    · exact le_max_left 0 _
    · exact le_refl 0

theorem le_foldl_max_init (l : List ℚ) : ∀ b : ℚ, b ≤ l.foldl max b := by
  induction l with
  | nil => intro b; simp
  | cons a l ih =>
    intro b
    calc b ≤ max b a := le_max_left b a
      _ ≤ (l.foldl max (max b a)) := ih (max b a)

theorem mem_le_foldl_max {l : List ℚ} {x : ℚ} (hx : x ∈ l) : ∀ b : ℚ, x ≤ l.foldl max b := by
  induction l with
  | nil => cases hx
  | cons a l ih =>
    intro b
    rcases List.mem_cons.mp hx with rfl | hx
    · calc x ≤ max b x := le_max_right b x
        _ ≤ l.foldl max (max b x) := le_foldl_max_init l (max b x)
    · exact ih hx (max b a)

theorem mem_le_pandasMax {l : List ℚ} {x : ℚ} (hx : x ∈ l) : x ≤ pandasMax l := by
  cases l with
  | nil => cases hx
  | cons a l =>
    unfold pandasMax
    rcases List.mem_cons.mp hx with rfl | hx
    · exact le_foldl_max_init l x
    · exact mem_le_foldl_max hx a

theorem natMax_le {l : List ℕ} {b : ℕ} (h : ∀ x ∈ l, x ≤ b) : natMax l ≤ b := by
  induction l with
  | nil => exact Nat.zero_le b
  | cons a l ih =>
    unfold natMax at *
    simp only [List.foldr_cons]
    exact max_le (h a (List.mem_cons_self a l)) (ih (fun x hx => h x (List.mem_cons_of_mem a hx)))

theorem le_natMax {l : List ℕ} {x : ℕ} (hx : x ∈ l) : x ≤ natMax l := by
  induction l with
  | nil => cases hx
  | cons a l ih =>
    unfold natMax at *
    simp only [List.foldr_cons]
    rcases List.mem_cons.mp hx with rfl | hx
    · exact le_max_left x _
    · exact le_trans (ih hx) (le_max_right a _)

theorem natMax_mem_or_eq_zero (l : List ℕ) : natMax l ∈ l ∨ natMax l = 0 := by
  induction l with
  | nil => right; rfl
  | cons a l ih =>
    unfold natMax at *
    simp only [List.foldr_cons]
    rcases le_total a (l.foldr max 0) with h | h
    · rw [max_eq_right h]
      rcases ih with hm | hz
      · left; exact List.mem_cons_of_mem a hm
      · rw [hz]
        right
        omega
    · rw [max_eq_left h]
      left
      exact List.mem_cons_self a l

theorem sum_le_length {l : List ℕ} (h : ∀ x ∈ l, x ≤ 1) : l.sum ≤ l.length := by
  induction l with
  | nil => simp
  | cons a l ih =>
    simp only [List.sum_cons, List.length_cons]
    have ha := h a (List.mem_cons_self a l)
    have := ih (fun x hx => h x (List.mem_cons_of_mem a hx))
    omega

theorem keysOfAux_nil [DecidableEq α] (n : ℕ) : keysOfAux n ([] : List α) = [] := by
  cases n <;> rfl

theorem keysOfAux_zero [DecidableEq α] (l : List α) : keysOfAux 0 l = [] := by
  cases l <;> rfl

theorem keysOfAux_of_le [DecidableEq α] :
    ∀ (n : ℕ) {m : ℕ} {l : List α}, l.length ≤ n → l.length ≤ m →
      keysOfAux n l = keysOfAux m l := by
  intro n
  induction n with
  | zero =>
    intro m l hn _
    have : l = [] := List.length_eq_zero.mp (Nat.le_zero.mp hn)
    subst this
    rw [keysOfAux_nil, keysOfAux_nil]
  | succ n ih =>
    intro m l hn hm
    cases l with
    | nil => rw [keysOfAux_nil, keysOfAux_nil]
    | cons a l =>
      cases m with
      | zero => simp at hm
      | succ m =>
        simp only [keysOfAux]
        congr 1
        have hf : (l.filter (fun b => decide (b ≠ a))).length ≤ l.length :=
          List.length_filter_le _ l
        have hln : l.length ≤ n := by simpa using hn
        have hlm : l.length ≤ m := by simpa using hm
        exact ih (le_trans hf hln) (le_trans hf hlm)

theorem keysOf_cons [DecidableEq α] (a : α) (l : List α) :
    keysOf (a :: l) = a :: keysOf (l.filter (fun b => decide (b ≠ a))) := by
  unfold keysOf
  simp only [List.length_cons, keysOfAux]
  congr 1
  exact keysOfAux_of_le l.length (List.length_filter_le _ l) (le_refl _)

theorem keysOfAux_subset [DecidableEq α] :
    ∀ (n : ℕ) (l : List α) (x : α), x ∈ keysOfAux n l → x ∈ l := by
  intro n
  induction n with
  | zero => intro l x hx; rw [keysOfAux_zero] at hx; cases hx
  | succ n ih =>
    intro l x hx
    cases l with
    | nil => rw [keysOfAux_nil] at hx; cases hx
    | cons a l =>
      simp only [keysOfAux] at hx
      rcases List.mem_cons.mp hx with rfl | hx
      · exact List.mem_cons_self x l
      · exact List.mem_cons_of_mem a (List.mem_filter.mp (ih _ x hx)).1

theorem keysOf_subset [DecidableEq α] {l : List α} {x : α} (hx : x ∈ keysOf l) : x ∈ l :=
  keysOfAux_subset l.length l x hx

theorem keysOfAux_nodup [DecidableEq α] : ∀ (n : ℕ) (l : List α), (keysOfAux n l).Nodup := by
  intro n
  induction n with
  | zero => intro l; rw [keysOfAux_zero]; exact List.nodup_nil
  | succ n ih =>
    intro l
    cases l with
    | nil => rw [keysOfAux_nil]; exact List.nodup_nil
    | cons a l =>
      simp only [keysOfAux]
      rw [List.nodup_cons]
      refine ⟨?_, ih _⟩
      intro hmem
      have := (List.mem_filter.mp (keysOfAux_subset n _ a hmem)).2
      simp at this

theorem keysOf_nodup [DecidableEq α] (l : List α) : (keysOf l).Nodup :=
  keysOfAux_nodup l.length l

theorem mem_keysOfAux [DecidableEq α] :
    ∀ (n : ℕ) (l : List α) (x : α), l.length ≤ n → x ∈ l → x ∈ keysOfAux n l := by
  intro n
  induction n with
  | zero =>
    intro l x hn hx
    have : l = [] := List.length_eq_zero.mp (Nat.le_zero.mp hn)
    subst this
    cases hx
  | succ n ih =>
    intro l x hn hx
    cases l with
    | nil => cases hx
    | cons a l =>
      simp only [keysOfAux]
      by_cases hxa : x = a
      · exact hxa ▸ List.mem_cons_self x _
      · rcases List.mem_cons.mp hx with rfl | hx
        · exact absurd rfl hxa
        · refine List.mem_cons_of_mem a (ih _ x ?_ ?_)
          · exact le_trans (List.length_filter_le _ l) (by simpa using hn)
          · exact List.mem_filter.mpr ⟨hx, by simpa using hxa⟩

theorem mem_keysOf [DecidableEq α] {l : List α} {x : α} : x ∈ keysOf l ↔ x ∈ l :=
  ⟨keysOf_subset, mem_keysOfAux l.length l x (le_refl _)⟩

theorem keysOfAux_eq_self [DecidableEq α] :
    ∀ (n : ℕ) (l : List α), l.length ≤ n → l.Nodup → keysOfAux n l = l := by
  intro n
  induction n with
  | zero =>
    intro l hn _
    have : l = [] := List.length_eq_zero.mp (Nat.le_zero.mp hn)
    subst this
    rfl
  | succ n ih =>
    intro l hn hnd
    cases l with
    | nil => rfl
    | cons a l =>
      simp only [keysOfAux]
      rw [List.nodup_cons] at hnd
      have hfe : l.filter (fun b => decide (b ≠ a)) = l := by
        apply List.filter_eq_self.mpr
        intro b hb
        simp only [decide_eq_true_eq]
        intro hba
        exact hnd.1 (hba ▸ hb)
      rw [hfe]
      rw [ih l (by simpa using hn) hnd.2]

theorem keysOf_eq_self_of_nodup [DecidableEq α] {l : List α} (h : l.Nodup) : keysOf l = l :=
  keysOfAux_eq_self l.length l (le_refl _) h

theorem keysOf_ne_nil [DecidableEq α] {l : List α} (h : l ≠ []) : keysOf l ≠ [] := by
  cases l with
  | nil => exact absurd rfl h
  | cons a l => rw [keysOf_cons]; exact List.cons_ne_nil _ _

theorem keysOf_const [DecidableEq α] {l : List α} {a : α} (hne : l ≠ [])
    (hc : ∀ x ∈ l, x = a) : keysOf l = [a] := by
  cases l with
  | nil => exact absurd rfl hne
  | cons b l =>
    have hb : b = a := hc b (List.mem_cons_self b l)
    subst hb
    rw [keysOf_cons]
    have : l.filter (fun x => decide (x ≠ b)) = [] := by
      apply List.filter_eq_nil.mpr
      intro x hx
      have := hc x (List.mem_cons_of_mem b hx)
      simp [this]
    rw [this]
    rfl

theorem keysOf_const_append [DecidableEq α] {l m : List α} {a b : α}
    (hlne : l ≠ []) (hl : ∀ x ∈ l, x = a) (hmne : m ≠ []) (hm : ∀ x ∈ m, x = b)
    (hab : a ≠ b) : keysOf (l ++ m) = [a, b] := by
  cases l with
  | nil => exact absurd rfl hlne
  | cons c l =>
    have hc : c = a := hl c (List.mem_cons_self c l)
    subst hc
    rw [List.cons_append, keysOf_cons]
    have hfl : l.filter (fun x => decide (x ≠ c)) = [] := by
      apply List.filter_eq_nil.mpr
      intro x hx
      have := hl x (List.mem_cons_of_mem c hx)
      simp [this]
    have hfm : m.filter (fun x => decide (x ≠ c)) = m := by
      apply List.filter_eq_self.mpr
      intro x hx
      have hxb := hm x hx
      have hxc : x ≠ c := by rw [hxb]; exact fun h => hab h.symm
      simp [hxc]
    rw [List.filter_append, hfl, hfm, List.nil_append, keysOf_const hmne hm]

theorem nodup_map_snd_of_const_fst {l : List (ℕ × ℕ)} {u : ℕ} (hnd : l.Nodup)
    (hu : ∀ p ∈ l, p.1 = u) : (l.map Prod.snd).Nodup := by
  induction l with
  | nil => exact List.nodup_nil
  | cons p l ih =>
    rw [List.nodup_cons] at hnd
    simp only [List.map_cons, List.nodup_cons]
    constructor
    · intro hmem
      rcases List.mem_map.mp hmem with ⟨q, hq, hq2⟩
      have hp1 : p.1 = u := hu p (List.mem_cons_self p l)
      have hq1 : q.1 = u := hu q (List.mem_cons_of_mem p hq)
      have : q = p := Prod.ext (hq1.trans hp1.symm) hq2
      exact hnd.1 (this ▸ hq)
    · exact ih hnd.2 (fun q hq => hu q (List.mem_cons_of_mem p hq))

theorem lexLt_cons_iff {a b : Char} {as bs : List Char} :
    lexLt (a :: as) (b :: bs) = true ↔
      a.toNat < b.toNat ∨ (a.toNat = b.toNat ∧ lexLt as bs = true) := by
  simp only [lexLt]
  split_ifs with h1 h2
  · simp [h1]
  · constructor
    · intro h; cases h
    · rintro (h | ⟨h, _⟩) <;> omega
  · constructor
    · intro h; right; exact ⟨by omega, h⟩
    · rintro (h | ⟨_, h⟩)
      · omega
      · exact h

theorem lexLt_irrefl : ∀ x : List Char, lexLt x x = false := by
  intro x
  induction x with
  | nil => rfl
  | cons a as ih =>
    by_contra h
    rw [Bool.not_eq_false] at h
    rcases lexLt_cons_iff.mp h with h' | ⟨_, h'⟩
    · omega
    · rw [ih] at h'; cases h'

theorem lexLt_trans : ∀ x y z : List Char,
    lexLt x y = true → lexLt y z = true → lexLt x z = true := by
  intro x
  induction x with
  | nil =>
    intro y z h1 h2
    cases y with
    | nil => cases h1
    | cons b bs =>
      cases z with
      | nil => cases h2
      | cons c cs => rfl
  | cons a as ih =>
    intro y z h1 h2
    cases y with
    | nil => cases h1
    | cons b bs =>
      cases z with
      | nil => cases h2
      | cons c cs =>
        rcases lexLt_cons_iff.mp h1 with hab | ⟨hab, hab2⟩ <;>
          rcases lexLt_cons_iff.mp h2 with hbc | ⟨hbc, hbc2⟩
        · exact lexLt_cons_iff.mpr (Or.inl (by omega))
        · exact lexLt_cons_iff.mpr (Or.inl (by omega))
        · exact lexLt_cons_iff.mpr (Or.inl (by omega))
        · exact lexLt_cons_iff.mpr (Or.inr ⟨by omega, ih bs cs hab2 hbc2⟩)

theorem lexLt_asymm {x y : List Char} (h : lexLt x y = true) : lexLt y x = false := by
  by_contra hc
  rw [Bool.not_eq_false] at hc
  have := lexLt_trans x y x h hc
  rw [lexLt_irrefl] at this
  cases this

theorem strLt_trans {x y z : String} (h1 : strLt x y = true) (h2 : strLt y z = true) :
    strLt x z = true :=
  lexLt_trans x.data y.data z.data h1 h2

theorem strLt_asymm {x y : String} (h : strLt x y = true) : strLt y x = false :=
  lexLt_asymm h

theorem strLt_irrefl (x : String) : strLt x x = false := lexLt_irrefl x.data

theorem char_toNat_inj {a b : Char} (h : a.toNat = b.toNat) : a = b := by
  apply Char.ext
  unfold Char.toNat at h
  exact UInt32.ext h

theorem lexLt_connex : ∀ x y : List Char, lexLt x y = false → x = y ∨ lexLt y x = true := by
  intro x
  induction x with
  | nil =>
    intro y h
    cases y with
    | nil => left; rfl
    | cons b bs => cases h
  | cons a as ih =>
    intro y h
    cases y with
    | nil => right; rfl
    | cons b bs =>
      have hn : ¬ (a.toNat < b.toNat ∨ (a.toNat = b.toNat ∧ lexLt as bs = true)) := by
        intro hcon
        have := lexLt_cons_iff.mpr hcon
        rw [h] at this
        cases this
      push_neg at hn
      rcases Nat.lt_trichotomy a.toNat b.toNat with hab | hab | hab
      · exact absurd hab (Nat.not_lt.mpr hn.1)
      · have hrec : lexLt as bs = false := by simpa using hn.2 hab
        rcases ih bs hrec with rfl | hba
        · left
          rw [char_toNat_inj hab]
        · right
          exact lexLt_cons_iff.mpr (Or.inr ⟨hab.symm, hba⟩)
      · right
        exact lexLt_cons_iff.mpr (Or.inl hab)

theorem strLt_connex {v a : String} (h : strLt v a = false) : v = a ∨ strLt a v = true := by
  rcases lexLt_connex v.data a.data h with hd | hlt
  · left
    cases v; cases a
    simp only at hd
    rw [hd]
  · right
    exact hlt

theorem foldl_min_spec (l : List String) : ∀ a : String,
    (l.foldl (fun m b => if strLt b m then b else m) a) ∈ a :: l ∧
    strLt a (l.foldl (fun m b => if strLt b m then b else m) a) = false ∧
    ∀ v ∈ l, strLt v (l.foldl (fun m b => if strLt b m then b else m) a) = false := by
  induction l with
  | nil =>
    intro a
    refine ⟨List.mem_cons_self a [], strLt_irrefl a, ?_⟩
    intro v hv
    cases hv
  | cons b l ih =>
    intro a
    simp only [List.foldl_cons]
    by_cases hba : strLt b a = true
    · rw [if_pos hba]
      rcases ih b with ⟨hmem, hbm, hall⟩
      refine ⟨?_, ?_, ?_⟩
      · rcases List.mem_cons.mp hmem with hme | hmem
        · rw [hme]; exact List.mem_cons_of_mem a (List.mem_cons_self b l)
        · exact List.mem_cons_of_mem a (List.mem_cons_of_mem b hmem)
      · -- a is not below the result: b is below a, the result is not above b,
        -- so a below the result would put b below the result by transitivity.
        by_contra hc
        rw [Bool.not_eq_false] at hc
        have : strLt b (l.foldl (fun m x => if strLt x m then x else m) b) = true :=
          strLt_trans hba hc
        rw [hbm] at this
        cases this
      · intro v hv
        rcases List.mem_cons.mp hv with hvb | hv
        · rw [hvb]; exact hbm
        · exact hall v hv
    · rw [if_neg hba]
      rcases ih a with ⟨hmem, ham, hall⟩
      refine ⟨?_, ham, ?_⟩
      · rcases List.mem_cons.mp hmem with hme | hmem
        · rw [hme]; exact List.mem_cons_self a _
        · exact List.mem_cons_of_mem a (List.mem_cons_of_mem b hmem)
      · intro v hv
        rcases List.mem_cons.mp hv with hvb | hv
        · -- v = b, and b is not below a.  By connexity b = a or a is below b;
          -- either way b below the result would contradict ham via transitivity.
          rw [hvb]
          by_contra hc
          rw [Bool.not_eq_false] at hc
          have hba' : strLt b a = false := by simpa using hba
          rcases strLt_connex hba' with hbae | hav
          · rw [hbae] at hc
            rw [hc] at ham
            cases ham
          · have := strLt_trans hav hc
            rw [this] at ham
            cases ham
        · exact hall v hv

theorem candidates_ne_nil {l : List String} (h : l ≠ []) : candidates l ≠ [] := by
  have hk : keysOf l ≠ [] := keysOf_ne_nil h
  rcases natMax_mem_or_eq_zero ((keysOf l).map (fun v => l.count v)) with hm | hz
  · rcases List.mem_map.mp hm with ⟨v, hv, hveq⟩
    apply List.ne_nil_of_mem (a := v)
    apply List.mem_filter.mpr
    refine ⟨hv, ?_⟩
    simp only [decide_eq_true_eq]
    exact hveq
  · exfalso
    cases hkc : keysOf l with
    | nil => exact hk hkc
    | cons k ks =>
      have hkm : k ∈ keysOf l := hkc ▸ List.mem_cons_self k ks
      have h1 : 1 ≤ l.count k := List.count_pos_iff.mpr (keysOf_subset hkm)
      have h2 : l.count k ≤ natMax ((keysOf l).map (fun v => l.count v)) :=
        le_natMax (List.mem_map_of_mem _ hkm)
      omega

theorem mode_or_first_spec (l : List (Option String)) (h : l.filterMap id ≠ []) :
    ∃ m, mode_or_first l = some m ∧ m ∈ l.filterMap id ∧
      (∀ v ∈ l.filterMap id, (l.filterMap id).count v ≤ (l.filterMap id).count m) ∧
      (∀ v ∈ l.filterMap id, (l.filterMap id).count v = (l.filterMap id).count m →
        strLt v m = false) := by
  obtain ⟨c, cs, hc⟩ : ∃ c cs, candidates (l.filterMap id) = c :: cs := by
    cases hcand : candidates (l.filterMap id) with
    | nil => exact absurd hcand (candidates_ne_nil h)
    | cons c cs => exact ⟨c, cs, rfl⟩
  obtain ⟨hmem, hcm, hall⟩ := foldl_min_spec cs c
  have hmc : (cs.foldl (fun m b => if strLt b m then b else m) c) ∈
      candidates (l.filterMap id) := by
    rw [hc]
    exact hmem
  have hmax : (l.filterMap id).count (cs.foldl (fun m b => if strLt b m then b else m) c)
      = maxCount (l.filterMap id) := by
    have := (List.mem_filter.mp hmc).2
    simpa using this
  refine ⟨cs.foldl (fun m b => if strLt b m then b else m) c, ?_, ?_, ?_, ?_⟩
  · unfold mode_or_first
    rw [hc]
    rfl
  · exact keysOf_subset (List.mem_filter.mp hmc).1
  · intro v hv
    rw [hmax]
    exact le_natMax (List.mem_map_of_mem _ (mem_keysOf.mpr hv))
  · intro v hv hveq
    have hvc : v ∈ candidates (l.filterMap id) := by
      apply List.mem_filter.mpr
      refine ⟨mem_keysOf.mpr hv, ?_⟩
      simp only [decide_eq_true_eq]
      rw [← hmax]
      exact hveq
    rw [hc] at hvc
    rcases List.mem_cons.mp hvc with hvc | hvc
    · rw [hvc]
      exact hcm
    · exact hall v hvc

theorem buildSessionRows_keys (events : List Event) :
    (buildSessionRows events).map (fun s => (s.user_id, s.session_id))
      = keysOf (events.map (fun e => (e.user_id, e.session_id))) := by
  unfold buildSessionRows
  rw [List.map_map]
  have : ((fun s : Session => (s.user_id, s.session_id)) ∘
      (fun k => mkSession k
        (events.filter (fun e => decide (e.user_id = k.1 ∧ e.session_id = k.2)))))
      = fun k => k := by
    funext k
    rfl
  rw [this]
  exact List.map_id _

theorem session_flags_le {events : List Event}
    (hfl : ∀ e ∈ events, e.is_repeat_session ≤ 1 ∧ e.bounce_flag ≤ 1 ∧ e.spam_flag ≤ 1) :
    ∀ s ∈ buildSessionRows events,
      s.is_repeat_session ≤ 1 ∧ s.bounce_flag ≤ 1 ∧ s.spam_flag ≤ 1 := by
  intro s hs
  unfold buildSessionRows at hs
  rcases List.mem_map.mp hs with ⟨k, hk, rfl⟩
  refine ⟨?_, ?_, ?_⟩
  · apply natMax_le
    intro x hx
    rcases List.mem_map.mp hx with ⟨e, he, rfl⟩
    exact (hfl e (List.mem_filter.mp he).1).1
  · apply natMax_le
    intro x hx
    rcases List.mem_map.mp hx with ⟨e, he, rfl⟩
    exact (hfl e (List.mem_filter.mp he).1).2.1
  · apply natMax_le
    intro x hx
    rcases List.mem_map.mp hx with ⟨e, he, rfl⟩
    exact (hfl e (List.mem_filter.mp he).1).2.2

theorem computeRate_unit {sN tot : ℕ} (hle : sN ≤ tot) (hpos : 0 < tot) :
    ∃ q, computeRate (sN : ℚ) (tot : ℚ) = PFloat.val q ∧ 0 ≤ q ∧ q ≤ 1 := by
  have htne : (tot : ℚ) ≠ 0 := Nat.cast_ne_zero.mpr (Nat.pos_iff_ne_zero.mp hpos)
  refine ⟨(sN : ℚ) / tot, ?_, ?_, ?_⟩
  · unfold computeRate pdiv
    rw [if_pos htne]
    rfl
  · positivity
  · rw [div_le_one (by exact_mod_cast hpos)]
    exact_mod_cast hle

theorem normFeats_mem_unit (lg : ℚ → ℚ) (hm : Monotone lg) (h0 : lg 0 = 0) (h1 : 0 < lg 1)
    (df : List Row) (r : Row) (hr : r ∈ df) (hwf : WFRow r) :
    (0 ≤ (normFeats lg (computeMaxVals df) r).signups
        ∧ (normFeats lg (computeMaxVals df) r).signups ≤ 1) ∧
    (0 ≤ (normFeats lg (computeMaxVals df) r).calendar_bookings
        ∧ (normFeats lg (computeMaxVals df) r).calendar_bookings ≤ 1) ∧
    (0 ≤ (normFeats lg (computeMaxVals df) r).demo_request_clicks
        ∧ (normFeats lg (computeMaxVals df) r).demo_request_clicks ≤ 1) ∧
    (0 ≤ (normFeats lg (computeMaxVals df) r).pricing_page_views
        ∧ (normFeats lg (computeMaxVals df) r).pricing_page_views ≤ 1) ∧
    (0 ≤ (normFeats lg (computeMaxVals df) r).page_views
        ∧ (normFeats lg (computeMaxVals df) r).page_views ≤ 1) ∧
    (0 ≤ (normFeats lg (computeMaxVals df) r).recent_pages_viewed
        ∧ (normFeats lg (computeMaxVals df) r).recent_pages_viewed ≤ 1) ∧
    (0 ≤ (normFeats lg (computeMaxVals df) r).repeat_session_rate
        ∧ (normFeats lg (computeMaxVals df) r).repeat_session_rate ≤ 1) ∧
    (0 ≤ (normFeats lg (computeMaxVals df) r).account_balance_usd
        ∧ (normFeats lg (computeMaxVals df) r).account_balance_usd ≤ 1) := by
  obtain ⟨hwd, hwp, hwpg, hwr, hwb, hwrs⟩ := hwf
  have hle : ∀ f : Row → ℚ, f r ≤ max 1 (pandasMax (df.map f)) := by
    intro f
    exact le_trans (mem_le_pandasMax (List.mem_map_of_mem f hr)) (le_max_right 1 _)
  refine ⟨?_, ?_, ?_, ?_, ?_, ?_, ?_, ?_⟩
  · unfold normFeats
    dsimp only
    split_ifs <;> norm_num
  · unfold normFeats
    dsimp only
    split_ifs <;> norm_num
  · exact ⟨normalize_count_nonneg hwd, normalize_count_le_one (hle (·.demo_request_clicks))⟩
  · exact ⟨normalize_count_nonneg hwp, normalize_count_le_one (hle (·.pricing_page_views))⟩
  · exact ⟨normalize_count_nonneg hwpg, normalize_count_le_one (hle (·.page_views))⟩
  · exact ⟨normalize_count_nonneg hwr, normalize_count_le_one (hle (·.recent_pages_viewed))⟩
  · constructor
    · apply le_min (by norm_num)
      exact add_nonneg hwrs (mul_nonneg (by norm_num) (recencyBoost_nonneg _))
    · exact min_le_left 1 _
  · constructor
    · exact log_normalize_nonneg hm h0 h1 hwb (le_max_left 1 _)
    · exact log_normalize_le_one hm h0 h1 hwb (hle (·.account_balance_usd)) (le_max_left 1 _)

/-! ### Claim theorems -/

/-- C2: for every user scored by `score_user_row`, the sum of the eight
`feature_contributions` values taken in raw fraction form (divided by 100,
undoing the ×100 scaling) equals the user's raw weighted score within a
rounding tolerance of at most 0.01. -/
theorem c2_contribs_sum_matches_raw_score (lg : ℚ → ℚ) (mv : MaxVals) (r : Row) :
    |((score_user_row lg mv DEFAULT_WEIGHTS DEFAULT_THRESHOLDS r).contribs.map Prod.snd).sum
        / 100 - rawScore DEFAULT_WEIGHTS (normFeats lg mv r)| ≤ 1/100 := by
  have hc : (score_user_row lg mv DEFAULT_WEIGHTS DEFAULT_THRESHOLDS r).contribs
      = contribsOf DEFAULT_WEIGHTS (normFeats lg mv r) := rfl
  rw [hc]
  have h1 := abs_pyround_sub_le (3/10 * (normFeats lg mv r).signups * 100) 3
  have h2 := abs_pyround_sub_le (3/10 * (normFeats lg mv r).calendar_bookings * 100) 3
  have h3 := abs_pyround_sub_le (3/20 * (normFeats lg mv r).demo_request_clicks * 100) 3
  have h4 := abs_pyround_sub_le (2/25 * (normFeats lg mv r).pricing_page_views * 100) 3
  have h5 := abs_pyround_sub_le (1/20 * (normFeats lg mv r).page_views * 100) 3
  have h6 := abs_pyround_sub_le (1/20 * (normFeats lg mv r).repeat_session_rate * 100) 3
  have h7 := abs_pyround_sub_le (1/20 * (normFeats lg mv r).account_balance_usd * 100) 3
  have h8 := abs_pyround_sub_le (1/50 * (normFeats lg mv r).recent_pages_viewed * 100) 3
  simp only [contribsOf, rawScore, DEFAULT_WEIGHTS, List.map_cons, List.map_nil,
    List.sum_cons, List.sum_nil, featGet_signups, featGet_calendar, featGet_demo,
    featGet_pricing, featGet_pages, featGet_recent, featGet_rsr, featGet_balance]
  norm_num at h1 h2 h3 h4 h5 h6 h7 h8 ⊢
  rw [abs_le] at h1 h2 h3 h4 h5 h6 h7 h8 ⊢
  constructor <;> linarith

/-- C3: the recency bonus is `(30 - days)/30` when `days ≤ 30` and `0`
when `days > 30`, it is folded into the repeat-session signal as
`min(1, rate + 0.25 * bonus)`, and the combined signal never exceeds 1. -/
theorem c3_recency_boost (lg : ℚ → ℚ) (mv : MaxVals) (r : Row) (d : ℚ)
    (hd : r.days_since_last_event = some d) :
    (d ≤ 30 → recencyBoost r.days_since_last_event = (30 - d) / 30) ∧
    (30 < d → recencyBoost r.days_since_last_event = 0) ∧
    (normFeats lg mv r).repeat_session_rate
      = min 1 (r.repeat_session_rate.getD 0 + (1/4) * recencyBoost r.days_since_last_event) ∧
    (normFeats lg mv r).repeat_session_rate ≤ 1 := by
  refine ⟨?_, ?_, rfl, min_le_left 1 _⟩
  · intro h30
    rw [hd]
    show (if d ≤ 30 then max 0 ((30 - d) / 30) else 0) = (30 - d) / 30
    rw [if_pos h30]
    exact max_eq_right (by linarith)
  · intro h30
    rw [hd]
    show (if d ≤ 30 then max 0 ((30 - d) / 30) else 0) = 0
    rw [if_neg (not_le.mpr h30)]

/-- Witness for C3 at a concrete row with 10 days since the last event. -/
theorem c3_recency_boost_witness :
    exRow.days_since_last_event = some 10 ∧
    (((10 : ℚ) ≤ 30 → recencyBoost exRow.days_since_last_event = (30 - 10) / 30) ∧
     ((30 : ℚ) < 10 → recencyBoost exRow.days_since_last_event = 0) ∧
     (normFeats id (computeMaxVals [exRow]) exRow).repeat_session_rate
       = min 1 (exRow.repeat_session_rate.getD 0
           + (1/4) * recencyBoost exRow.days_since_last_event) ∧
     (normFeats id (computeMaxVals [exRow]) exRow).repeat_session_rate ≤ 1) :=
  ⟨rfl, c3_recency_boost id (computeMaxVals [exRow]) exRow 10 rfl⟩

/-- C8: the scoring logic duplicated in find_user_features.py produces,
for identical population maxima, weights and thresholds, exactly the same
score, label, explanation and contribution mapping as score_rules.py. -/
theorem c8_duplicate_scoring_equivalent (lg : ℚ → ℚ) (mv : MaxVals) (r : Row) :
    FindUF.score_row lg mv r = score_user_row lg mv DEFAULT_WEIGHTS DEFAULT_THRESHOLDS r := rfl

/-- C9 (amended): aggregation is total; the output user table is empty
exactly when the input event table is empty — zero input rows produce an
empty output table rather than a fatal error. -/
theorem c9_empty_input_empty_output (now : ℚ) (events : List Event) :
    build_user_features now events = [] ↔ events = [] := by
  constructor
  · intro h
    cases events with
    | nil => rfl
    | cons e es =>
      exfalso
      have h1 : buildSessionRows (e :: es) ≠ [] := by
        intro hc
        unfold buildSessionRows at hc
        rw [List.map_eq_nil] at hc
        rw [List.map_cons, keysOf_cons] at hc
        cases hc
      unfold build_user_features at h
      rw [List.map_eq_nil] at h
      have h2 : (buildSessionRows (e :: es)).map (·.user_id) ≠ [] := by
        intro hc
        exact h1 (List.map_eq_nil.mp hc)
      exact keysOf_ne_nil h2 h
  · intro h
    rw [h]
    rfl

/-- C9, counterexample to the claim as stated: on zero input rows the
aggregation does not fail with any error — it succeeds and produces the
empty user table (which the writer then emits as an output table with
headers only). -/
theorem c9_counterexample : build_user_features 0 [] = [] := rfl

/-- C5, counterexample to the claim as stated: a session whose events
carry devices "mobile" then "desktop" (a frequency tie).  First-seen
tie-breaking would pick "mobile", but the pipeline (`_mode_or_first` over
`Series.mode()`, which returns the tied values sorted ascending) picks
"desktop", the lexicographically least value. -/
theorem c5_counterexample :
    (build_user_features 0 [baseEvent, tieEvent]).map (·.primary_device) = [some "desktop"] ∧
    specFirstSeenMode ([baseEvent, tieEvent].map (fun e => some e.device)) = some "mobile" ∧
    ("desktop" : String) ≠ "mobile" := by
  refine ⟨by decide, by decide, by decide⟩

/-- C6, counterexample to the claim as stated: the rate computation
`(x / total_sessions).fillna(0)` guards only the 0/0 case.  A constructed
row with `repeat_sessions = 5` and `total_sessions = 0` yields +infinity,
not 0.0. -/
theorem c6_counterexample :
    computeRate 5 0 = PFloat.posInf ∧ computeRate 5 0 ≠ PFloat.val 0 := by
  refine ⟨by decide, by decide⟩

/-- C5 (amended): `_mode_or_first` on a nonempty device column returns a
most-frequent present value; a frequency tie is broken by taking the
*least* value in codepoint (ascending sort) order — the order in which
`Series.mode()` returns the tied values — not by first occurrence. -/
theorem c5_mode_most_frequent_least_tie (l : List (Option String))
    (h : l.filterMap id ≠ []) :
    ∃ m, mode_or_first l = some m ∧ m ∈ l.filterMap id ∧
      (∀ v ∈ l.filterMap id, (l.filterMap id).count v ≤ (l.filterMap id).count m) ∧
      (∀ v ∈ l.filterMap id, (l.filterMap id).count v = (l.filterMap id).count m →
        strLt v m = false) :=
  mode_or_first_spec l h

/-- Witness for C5 (amended) at a concrete tied column. -/
theorem c5_mode_most_frequent_least_tie_witness :
    (([some "mobile", some "desktop"] : List (Option String)).filterMap id ≠ []) ∧
    (∃ m, mode_or_first [some "mobile", some "desktop"] = some m ∧
      m ∈ ([some "mobile", some "desktop"] : List (Option String)).filterMap id ∧
      (∀ v ∈ ([some "mobile", some "desktop"] : List (Option String)).filterMap id,
        (([some "mobile", some "desktop"] : List (Option String)).filterMap id).count v ≤
          (([some "mobile", some "desktop"] : List (Option String)).filterMap id).count m) ∧
      (∀ v ∈ ([some "mobile", some "desktop"] : List (Option String)).filterMap id,
        (([some "mobile", some "desktop"] : List (Option String)).filterMap id).count v =
          (([some "mobile", some "desktop"] : List (Option String)).filterMap id).count m →
          strLt v m = false)) :=
  ⟨by decide, c5_mode_most_frequent_least_tie [some "mobile", some "desktop"] (by decide)⟩

/-- C6 (amended): every row actually produced by aggregation has its
three rates equal to finite values in [0,1] (its `total_sessions` is
positive); for a constructed zero-session row the code's rate computation
returns 0.0 only for a zero numerator — a positive numerator gives
+infinity (without raising). -/
theorem c6_rates_in_unit_interval (now : ℚ) (events : List Event)
    (hfl : ∀ e ∈ events, e.is_repeat_session ≤ 1 ∧ e.bounce_flag ≤ 1 ∧ e.spam_flag ≤ 1)
    (row : UserRow) (hrow : row ∈ build_user_features now events) :
    ((∃ q, row.repeat_session_rate = PFloat.val q ∧ 0 ≤ q ∧ q ≤ 1) ∧
     (∃ q, row.bounce_rate = PFloat.val q ∧ 0 ≤ q ∧ q ≤ 1) ∧
     (∃ q, row.spam_rate = PFloat.val q ∧ 0 ≤ q ∧ q ≤ 1)) ∧
    computeRate 0 0 = PFloat.val 0 ∧
    (∀ a : ℚ, 0 < a → computeRate a 0 = PFloat.posInf) := by
  refine ⟨?_, by decide, ?_⟩
  case refine_2 =>
    intro a ha
    unfold computeRate pdiv
    rw [if_neg (by norm_num), if_pos ha]
    rfl
  unfold build_user_features at hrow
  rcases List.mem_map.mp hrow with ⟨u, hu, rfl⟩
  have hnd : ((buildSessionRows events).map (fun s => (s.user_id, s.session_id))).Nodup := by
    rw [buildSessionRows_keys]
    exact keysOf_nodup _
  have hu' : u ∈ (buildSessionRows events).map (·.user_id) := keysOf_subset hu
  rcases List.mem_map.mp hu' with ⟨s0, hs0, hs0u⟩
  have hsu_ne : (buildSessionRows events).filter (fun s => decide (s.user_id = u)) ≠ [] :=
    List.ne_nil_of_mem (List.mem_filter.mpr ⟨hs0, by simp [hs0u]⟩)
  have hflag := session_flags_le hfl
  have hnd_su : (((buildSessionRows events).filter (fun s => decide (s.user_id = u))).map
      (fun s => (s.user_id, s.session_id))).Nodup :=
    hnd.sublist ((List.filter_sublist _).map _)
  have hfst : ∀ p ∈ ((buildSessionRows events).filter (fun s => decide (s.user_id = u))).map
      (fun s => (s.user_id, s.session_id)), p.1 = u := by
    intro p hp
    rcases List.mem_map.mp hp with ⟨s, hs, rfl⟩
    have := (List.mem_filter.mp hs).2
    simpa using this
  have hsnd : (((buildSessionRows events).filter (fun s => decide (s.user_id = u))).map
      (·.session_id)).Nodup := by
    have := nodup_map_snd_of_const_fst hnd_su hfst
    rw [List.map_map] at this
    exact this
  have htot : (keysOf ((((buildSessionRows events).filter
        (fun s => decide (s.user_id = u)))).map (·.session_id))).length
      = ((buildSessionRows events).filter (fun s => decide (s.user_id = u))).length := by
    rw [keysOf_eq_self_of_nodup hsnd, List.length_map]
  have hpos : 0 < ((buildSessionRows events).filter (fun s => decide (s.user_id = u))).length :=
    List.length_pos.mpr hsu_ne
  have hsum : ∀ f : Session → ℕ,
      (∀ s ∈ buildSessionRows events, f s ≤ 1) →
      ((((buildSessionRows events).filter (fun s => decide (s.user_id = u))).map f).sum
        ≤ ((buildSessionRows events).filter (fun s => decide (s.user_id = u))).length) := by
    intro f hf
    have := sum_le_length
      (l := (((buildSessionRows events).filter (fun s => decide (s.user_id = u))).map f))
      (by
        intro x hx
        rcases List.mem_map.mp hx with ⟨s, hs, rfl⟩
        exact hf s (List.mem_filter.mp hs).1)
    rwa [List.length_map] at this
  refine ⟨?_, ?_, ?_⟩
  · have h1 := hsum (·.is_repeat_session) (fun s hs => (hflag s hs).1)
    have := computeRate_unit (le_trans h1 (le_of_eq htot.symm)) (htot ▸ hpos)
    exact this
  · have h1 := hsum (·.bounce_flag) (fun s hs => (hflag s hs).2.1)
    have := computeRate_unit (le_trans h1 (le_of_eq htot.symm)) (htot ▸ hpos)
    exact this
  · have h1 := hsum (·.spam_flag) (fun s hs => (hflag s hs).2.2)
    have := computeRate_unit (le_trans h1 (le_of_eq htot.symm)) (htot ▸ hpos)
    exact this

/-- Witness for C6 (amended) on a one-event input. -/
theorem c6_rates_in_unit_interval_witness :
    (∀ e ∈ [baseEvent], e.is_repeat_session ≤ 1 ∧ e.bounce_flag ≤ 1 ∧ e.spam_flag ≤ 1) ∧
    (mkUserRow 0 [baseEvent] (buildSessionRows [baseEvent]) 1
        ∈ build_user_features 0 [baseEvent]) ∧
    (((∃ q, (mkUserRow 0 [baseEvent] (buildSessionRows [baseEvent]) 1).repeat_session_rate
          = PFloat.val q ∧ 0 ≤ q ∧ q ≤ 1) ∧
      (∃ q, (mkUserRow 0 [baseEvent] (buildSessionRows [baseEvent]) 1).bounce_rate
          = PFloat.val q ∧ 0 ≤ q ∧ q ≤ 1) ∧
      (∃ q, (mkUserRow 0 [baseEvent] (buildSessionRows [baseEvent]) 1).spam_rate
          = PFloat.val q ∧ 0 ≤ q ∧ q ≤ 1)) ∧
     computeRate 0 0 = PFloat.val 0 ∧
     (∀ a : ℚ, 0 < a → computeRate a 0 = PFloat.posInf)) := by
  have hmem : mkUserRow 0 [baseEvent] (buildSessionRows [baseEvent]) 1
      ∈ build_user_features 0 [baseEvent] := by
    show mkUserRow 0 [baseEvent] (buildSessionRows [baseEvent]) 1
      ∈ [mkUserRow 0 [baseEvent] (buildSessionRows [baseEvent]) 1]
    exact List.mem_singleton.mpr rfl
  exact ⟨by decide, hmem,
    c6_rates_in_unit_interval 0 [baseEvent] (by decide) _ hmem⟩

/-- C4: a user whose events form two sessions, one containing an event
with bounce_flag = 1 (possibly several) and the other only unflagged
events, aggregates to a user-level bounces count of exactly 1: flags are
max-ed per session and then summed across sessions, never summed per
event. -/
theorem c4_bounce_session_or (now : ℚ) (u s1 s2 : ℕ) (es1 es2 : List Event)
    (hs : s1 ≠ s2) (h1ne : es1 ≠ []) (h2ne : es2 ≠ [])
    (h1k : ∀ e ∈ es1, e.user_id = u ∧ e.session_id = s1)
    (h2k : ∀ e ∈ es2, e.user_id = u ∧ e.session_id = s2)
    (h1b : ∀ e ∈ es1, e.bounce_flag ≤ 1) (h1x : ∃ e ∈ es1, e.bounce_flag = 1)
    (h2b : ∀ e ∈ es2, e.bounce_flag = 0) :
    (build_user_features now (es1 ++ es2)).map (fun r => (r.user_id, r.bounces)) = [(u, 1)] := by
  have hkeys : keysOf ((es1 ++ es2).map (fun e => (e.user_id, e.session_id)))
      = [(u, s1), (u, s2)] := by
    rw [List.map_append]
    apply keysOf_const_append
    · intro hc
      exact h1ne (List.map_eq_nil.mp hc)
    · intro x hx
      rcases List.mem_map.mp hx with ⟨e, he, rfl⟩
      rcases h1k e he with ⟨hue, hse⟩
      rw [hue, hse]
    · intro hc
      exact h2ne (List.map_eq_nil.mp hc)
    · intro x hx
      rcases List.mem_map.mp hx with ⟨e, he, rfl⟩
      rcases h2k e he with ⟨hue, hse⟩
      rw [hue, hse]
    · simp [hs]
  have hg1 : (es1 ++ es2).filter
      (fun e => decide (e.user_id = (u, s1).1 ∧ e.session_id = (u, s1).2)) = es1 := by
    rw [List.filter_append]
    have ha : es1.filter
        (fun e => decide (e.user_id = (u, s1).1 ∧ e.session_id = (u, s1).2)) = es1 := by
      apply List.filter_eq_self.mpr
      intro e he
      rcases h1k e he with ⟨hue, hse⟩
      simp [hue, hse]
    have hb : es2.filter
        (fun e => decide (e.user_id = (u, s1).1 ∧ e.session_id = (u, s1).2)) = [] := by
      apply List.filter_eq_nil.mpr
      intro e he
      rcases h2k e he with ⟨hue, hse⟩
      simp only [decide_eq_true_eq, not_and]
      intro _
      rw [hse]
      exact fun h => hs h.symm
    rw [ha, hb, List.append_nil]
  have hg2 : (es1 ++ es2).filter
      (fun e => decide (e.user_id = (u, s2).1 ∧ e.session_id = (u, s2).2)) = es2 := by
    rw [List.filter_append]
    have ha : es1.filter
        (fun e => decide (e.user_id = (u, s2).1 ∧ e.session_id = (u, s2).2)) = [] := by
      apply List.filter_eq_nil.mpr
      intro e he
      rcases h1k e he with ⟨hue, hse⟩
      simp only [decide_eq_true_eq, not_and]
      intro _
      rw [hse]
      exact hs
    have hb : es2.filter
        (fun e => decide (e.user_id = (u, s2).1 ∧ e.session_id = (u, s2).2)) = es2 := by
      apply List.filter_eq_self.mpr
      intro e he
      rcases h2k e he with ⟨hue, hse⟩
      simp [hue, hse]
    rw [ha, hb, List.nil_append]
  have hsess : buildSessionRows (es1 ++ es2)
      = [mkSession (u, s1) es1, mkSession (u, s2) es2] := by
    unfold buildSessionRows
    rw [hkeys]
    simp only [List.map_cons, List.map_nil]
    rw [hg1, hg2]
  have hb1 : (mkSession (u, s1) es1).bounce_flag = 1 := by
    apply le_antisymm
    · apply natMax_le
      intro x hx
      rcases List.mem_map.mp hx with ⟨e, he, rfl⟩
      exact h1b e he
    · rcases h1x with ⟨e, he, hbe⟩
      simpa [hbe] using le_natMax (List.mem_map_of_mem (·.bounce_flag) he)
  have hb2 : (mkSession (u, s2) es2).bounce_flag = 0 := by
    have : (mkSession (u, s2) es2).bounce_flag ≤ 0 := by
      apply natMax_le
      intro x hx
      rcases List.mem_map.mp hx with ⟨e, he, rfl⟩
      exact le_of_eq (h2b e he)
    omega
  have huser : keysOf ((buildSessionRows (es1 ++ es2)).map (·.user_id)) = [u] := by
    rw [hsess]
    apply keysOf_const (List.cons_ne_nil _ _)
    intro x hx
    rcases List.mem_cons.mp hx with rfl | hx
    · rfl
    · rcases List.mem_cons.mp hx with rfl | hx
      · rfl
      · cases hx
  have hbounce : (mkUserRow now (es1 ++ es2) (buildSessionRows (es1 ++ es2)) u).bounces = 1 := by
    show ((((buildSessionRows (es1 ++ es2)).filter
        (fun s => decide (s.user_id = u))).map (·.bounce_flag)).sum) = 1
    rw [hsess]
    have hf : [mkSession (u, s1) es1, mkSession (u, s2) es2].filter
        (fun s => decide (s.user_id = u))
        = [mkSession (u, s1) es1, mkSession (u, s2) es2] := by
      apply List.filter_eq_self.mpr
      intro s hsm
      rcases List.mem_cons.mp hsm with rfl | hsm
      · simp [mkSession]
      · rcases List.mem_cons.mp hsm with rfl | hsm
        · simp [mkSession]
        · cases hsm
    rw [hf]
    simp only [List.map_cons, List.map_nil, List.sum_cons, List.sum_nil]
    rw [hb1, hb2]
    rfl
  rw [show build_user_features now (es1 ++ es2)
      = (keysOf ((buildSessionRows (es1 ++ es2)).map (·.user_id))).map
          (mkUserRow now (es1 ++ es2) (buildSessionRows (es1 ++ es2))) from rfl, huser]
  simp only [List.map_cons, List.map_nil]
  rw [show (mkUserRow now (es1 ++ es2) (buildSessionRows (es1 ++ es2)) u).user_id = u from rfl,
    hbounce]

/-- Witness for C4 on a concrete three-event input: session 1 holds two
flagged events, session 2 one unflagged event; the user-level bounce
count is 1, not 2. -/
theorem c4_bounce_session_or_witness :
    (1 : ℕ) ≠ 2 ∧ [bEvent1, bEvent2] ≠ [] ∧ [bEvent3] ≠ [] ∧
    (∀ e ∈ [bEvent1, bEvent2], e.user_id = 1 ∧ e.session_id = 1) ∧
    (∀ e ∈ [bEvent3], e.user_id = 1 ∧ e.session_id = 2) ∧
    (∀ e ∈ [bEvent1, bEvent2], e.bounce_flag ≤ 1) ∧
    (∃ e ∈ [bEvent1, bEvent2], e.bounce_flag = 1) ∧
    (∀ e ∈ [bEvent3], e.bounce_flag = 0) ∧
    (build_user_features 0 ([bEvent1, bEvent2] ++ [bEvent3])).map
      (fun r => (r.user_id, r.bounces)) = [(1, 1)] :=
  ⟨by decide, by decide, by decide, by decide, by decide, by decide, by decide, by decide,
    c4_bounce_session_or 0 1 1 2 [bEvent1, bEvent2] [bEvent3] (by decide) (by decide)
      (by decide) (by decide) (by decide) (by decide) (by decide) (by decide)⟩

/-- C1: every row of a batch scored by the rule-based scorer with the
default weights and thresholds gets a score in [0, 100] and a label that
is exactly one of high/medium/low, consistent with the thresholds:
score ≥ 70 ⇒ high, 40 ≤ score < 70 ⇒ medium, score < 40 ⇒ low.  `lg`
models `math.log1p` (monotone, 0 ↦ 0, positive at 1). -/
theorem c1_score_bounds_and_labels (lg : ℚ → ℚ) (hm : Monotone lg) (h0 : lg 0 = 0)
    (h1 : 0 < lg 1) (df : List Row) (r : Row) (hr : r ∈ df) (hwf : WFRow r) :
    0 ≤ (score_user_row lg (computeMaxVals df) DEFAULT_WEIGHTS DEFAULT_THRESHOLDS r).score ∧
    (score_user_row lg (computeMaxVals df) DEFAULT_WEIGHTS DEFAULT_THRESHOLDS r).score ≤ 100 ∧
    ((score_user_row lg (computeMaxVals df) DEFAULT_WEIGHTS DEFAULT_THRESHOLDS r).label = "high"
      ∨ (score_user_row lg (computeMaxVals df) DEFAULT_WEIGHTS DEFAULT_THRESHOLDS r).label
          = "medium"
      ∨ (score_user_row lg (computeMaxVals df) DEFAULT_WEIGHTS DEFAULT_THRESHOLDS r).label
          = "low") ∧
    (70 ≤ (score_user_row lg (computeMaxVals df) DEFAULT_WEIGHTS DEFAULT_THRESHOLDS r).score →
      (score_user_row lg (computeMaxVals df) DEFAULT_WEIGHTS DEFAULT_THRESHOLDS r).label
        = "high") ∧
    (40 ≤ (score_user_row lg (computeMaxVals df) DEFAULT_WEIGHTS DEFAULT_THRESHOLDS r).score ∧
      (score_user_row lg (computeMaxVals df) DEFAULT_WEIGHTS DEFAULT_THRESHOLDS r).score < 70 →
      (score_user_row lg (computeMaxVals df) DEFAULT_WEIGHTS DEFAULT_THRESHOLDS r).label
        = "medium") ∧
    ((score_user_row lg (computeMaxVals df) DEFAULT_WEIGHTS DEFAULT_THRESHOLDS r).score < 40 →
      (score_user_row lg (computeMaxVals df) DEFAULT_WEIGHTS DEFAULT_THRESHOLDS r).label
        = "low") ∧
    score_users_rules lg none none df
      = df.map (score_user_row lg (computeMaxVals df) DEFAULT_WEIGHTS DEFAULT_THRESHOLDS) := by
  obtain ⟨hf1, hf2, hf3, hf4, hf5, hf6, hf7, hf8⟩ :=
    normFeats_mem_unit lg hm h0 h1 df r hr hwf
  have hraw : 0 ≤ rawScore DEFAULT_WEIGHTS (normFeats lg (computeMaxVals df) r) ∧
      rawScore DEFAULT_WEIGHTS (normFeats lg (computeMaxVals df) r) ≤ 1 := by
    simp only [rawScore, DEFAULT_WEIGHTS, List.map_cons, List.map_nil, List.sum_cons,
      List.sum_nil, featGet_signups, featGet_calendar, featGet_demo, featGet_pricing,
      featGet_pages, featGet_recent, featGet_rsr, featGet_balance]
    obtain ⟨h1a, h1b⟩ := hf1
    obtain ⟨h2a, h2b⟩ := hf2
    obtain ⟨h3a, h3b⟩ := hf3
    obtain ⟨h4a, h4b⟩ := hf4
    obtain ⟨h5a, h5b⟩ := hf5
    obtain ⟨h6a, h6b⟩ := hf6
    obtain ⟨h7a, h7b⟩ := hf7
    obtain ⟨h8a, h8b⟩ := hf8
    constructor <;> linarith
  have hsc : (score_user_row lg (computeMaxVals df) DEFAULT_WEIGHTS DEFAULT_THRESHOLDS r).score
      = pyround (rawScore DEFAULT_WEIGHTS (normFeats lg (computeMaxVals df) r) * 100) 2 := rfl
  have h0s : 0 ≤ (score_user_row lg (computeMaxVals df) DEFAULT_WEIGHTS
      DEFAULT_THRESHOLDS r).score := by
    rw [hsc]
    exact pyround_nonneg 2 (mul_nonneg hraw.1 (by norm_num))
  have h100 : (score_user_row lg (computeMaxVals df) DEFAULT_WEIGHTS
      DEFAULT_THRESHOLDS r).score ≤ 100 := by
    rw [hsc]
    have := pyround_le (C := 100) 2
      (x := rawScore DEFAULT_WEIGHTS (normFeats lg (computeMaxVals df) r) * 100)
      (by push_cast; linarith [hraw.2]) (by norm_num)
    exact_mod_cast this
  have hlab : (score_user_row lg (computeMaxVals df) DEFAULT_WEIGHTS
        DEFAULT_THRESHOLDS r).label
      = (if (70 : ℚ) ≤ (score_user_row lg (computeMaxVals df) DEFAULT_WEIGHTS
            DEFAULT_THRESHOLDS r).score then "high"
         else if (40 : ℚ) ≤ (score_user_row lg (computeMaxVals df) DEFAULT_WEIGHTS
            DEFAULT_THRESHOLDS r).score then "medium"
         else "low") := rfl
  refine ⟨h0s, h100, ?_, ?_, ?_, ?_, rfl⟩
  · rw [hlab]
    split_ifs <;> simp
  · intro h70
    rw [hlab, if_pos h70]
  · rintro ⟨h40, h70⟩
    rw [hlab, if_neg (not_le.mpr h70), if_pos h40]
  · intro h40
    rw [hlab, if_neg (not_le.mpr (lt_trans h40 (by norm_num))),
      if_neg (not_le.mpr h40)]

/-- Witness for C1 at a concrete batch and row, with log1p instantiated
to the identity function (monotone, 0 ↦ 0, positive at 1). -/
theorem c1_score_bounds_and_labels_witness :
    exRow ∈ [exRow] ∧ WFRow exRow ∧
    (0 ≤ (score_user_row id (computeMaxVals [exRow]) DEFAULT_WEIGHTS
        DEFAULT_THRESHOLDS exRow).score ∧
     (score_user_row id (computeMaxVals [exRow]) DEFAULT_WEIGHTS
        DEFAULT_THRESHOLDS exRow).score ≤ 100 ∧
     ((score_user_row id (computeMaxVals [exRow]) DEFAULT_WEIGHTS
          DEFAULT_THRESHOLDS exRow).label = "high"
       ∨ (score_user_row id (computeMaxVals [exRow]) DEFAULT_WEIGHTS
          DEFAULT_THRESHOLDS exRow).label = "medium"
       ∨ (score_user_row id (computeMaxVals [exRow]) DEFAULT_WEIGHTS
          DEFAULT_THRESHOLDS exRow).label = "low") ∧
     (70 ≤ (score_user_row id (computeMaxVals [exRow]) DEFAULT_WEIGHTS
          DEFAULT_THRESHOLDS exRow).score →
       (score_user_row id (computeMaxVals [exRow]) DEFAULT_WEIGHTS
          DEFAULT_THRESHOLDS exRow).label = "high") ∧
     (40 ≤ (score_user_row id (computeMaxVals [exRow]) DEFAULT_WEIGHTS
          DEFAULT_THRESHOLDS exRow).score ∧
       (score_user_row id (computeMaxVals [exRow]) DEFAULT_WEIGHTS
          DEFAULT_THRESHOLDS exRow).score < 70 →
       (score_user_row id (computeMaxVals [exRow]) DEFAULT_WEIGHTS
          DEFAULT_THRESHOLDS exRow).label = "medium") ∧
     ((score_user_row id (computeMaxVals [exRow]) DEFAULT_WEIGHTS
          DEFAULT_THRESHOLDS exRow).score < 40 →
       (score_user_row id (computeMaxVals [exRow]) DEFAULT_WEIGHTS
          DEFAULT_THRESHOLDS exRow).label = "low") ∧
     score_users_rules id none none [exRow]
       = [exRow].map (score_user_row id (computeMaxVals [exRow]) DEFAULT_WEIGHTS
           DEFAULT_THRESHOLDS)) :=
  ⟨List.mem_singleton.mpr rfl, by decide,
    c1_score_bounds_and_labels id (fun _ _ h => h) rfl (by decide) [exRow] exRow
      (List.mem_singleton.mpr rfl) (by decide)⟩

theorem setCol_not_mem {df : Frame} {n : String} {v : List Cell} (h : n ∉ df.names) :
    df.setCol n v = ⟨df.cols ++ [(n, v)]⟩ := by
  unfold Frame.setCol
  rw [if_neg h]

theorem names_append_one (df : Frame) (n : String) (v : List Cell) :
    Frame.names ⟨df.cols ++ [(n, v)]⟩ = df.names ++ [n] := by
  unfold Frame.names
  simp

theorem nrows_append_zero (df : Frame) (n : String) :
    Frame.nrows ⟨df.cols ++ [(n, List.replicate df.nrows (Cell.num 0))]⟩ = df.nrows := by
  rcases df with ⟨cols⟩
  cases cols with
  | nil => simp [Frame.nrows]
  | cons c cs => simp [Frame.nrows]

theorem ensureRequired_cols : ∀ (w : List (String × ℚ)) (df : Frame),
    (w.map Prod.fst).Nodup →
    (ensureRequired w df).cols
      = df.cols ++ ((w.map Prod.fst).filter (fun n => decide (n ∉ df.names))).map
          (fun n => (n, List.replicate df.nrows (Cell.num 0))) := by
  intro w
  induction w with
  | nil => intro df _; simp [ensureRequired]
  | cons p w ih =>
    intro df hw
    have hstep : ensureRequired (p :: w) df
        = ensureRequired w
            (if p.1 ∈ df.names then df
             else df.setCol p.1 (List.replicate df.nrows (Cell.num 0))) := rfl
    rw [List.map_cons, List.nodup_cons] at hw
    by_cases hp : p.1 ∈ df.names
    · rw [hstep, if_pos hp, ih df hw.2, List.map_cons, List.filter_cons]
      rw [if_neg (by simp [hp])]
    · rw [hstep, if_neg hp, setCol_not_mem hp]
      rw [ih _ hw.2]
      have hnr : Frame.nrows ⟨df.cols ++ [(p.1, List.replicate df.nrows (Cell.num 0))]⟩
          = df.nrows := nrows_append_zero df p.1
      have hnm : Frame.names ⟨df.cols ++ [(p.1, List.replicate df.nrows (Cell.num 0))]⟩
          = df.names ++ [p.1] := names_append_one df p.1 _
      have hfc : (w.map Prod.fst).filter
            (fun n => decide (n ∉ Frame.names
              ⟨df.cols ++ [(p.1, List.replicate df.nrows (Cell.num 0))]⟩))
          = (w.map Prod.fst).filter (fun n => decide (n ∉ df.names)) := by
        apply List.filter_congr
        intro n hn
        have hne : n ≠ p.1 := fun hc => hw.1 (hc ▸ hn)
        rw [hnm]
        simp [List.mem_append, hne]
      rw [hfc, hnr]
      show (⟨df.cols ++ [(p.1, List.replicate df.nrows (Cell.num 0))]⟩ : Frame).cols ++ _ = _
      rw [List.map_cons, List.filter_cons, if_pos (by simp [hp])]
      simp [List.append_assoc]

theorem setCol_chain (df : Frame) (s lb ex fc : List Cell)
    (h1 : "score" ∉ df.names) (h2 : "score_label" ∉ df.names)
    (h3 : "explanation" ∉ df.names) (h4 : "feature_contributions" ∉ df.names) :
    ((((df.setCol "score" s).setCol "score_label" lb).setCol "explanation" ex).setCol
        "feature_contributions" fc).cols
      = df.cols ++ [("score", s), ("score_label", lb), ("explanation", ex),
          ("feature_contributions", fc)] := by
  have e1 : df.setCol "score" s = ⟨df.cols ++ [("score", s)]⟩ := setCol_not_mem h1
  have n1 : (df.setCol "score" s).names = df.names ++ ["score"] := by
    rw [e1]
    exact names_append_one df _ _
  have h2' : "score_label" ∉ (df.setCol "score" s).names := by
    rw [n1]
    simp [h2]
  have e2 : (df.setCol "score" s).setCol "score_label" lb
      = ⟨(df.setCol "score" s).cols ++ [("score_label", lb)]⟩ := setCol_not_mem h2'
  have n2 : ((df.setCol "score" s).setCol "score_label" lb).names
      = (df.setCol "score" s).names ++ ["score_label"] := by
    rw [e2]
    exact names_append_one _ _ _
  have h3' : "explanation" ∉ ((df.setCol "score" s).setCol "score_label" lb).names := by
    rw [n2, n1]
    simp [h3]
  have e3 : ((df.setCol "score" s).setCol "score_label" lb).setCol "explanation" ex
      = ⟨((df.setCol "score" s).setCol "score_label" lb).cols ++ [("explanation", ex)]⟩ :=
    setCol_not_mem h3'
  have n3 : (((df.setCol "score" s).setCol "score_label" lb).setCol "explanation" ex).names
      = ((df.setCol "score" s).setCol "score_label" lb).names ++ ["explanation"] := by
    rw [e3]
    exact names_append_one _ _ _
  have h4' : "feature_contributions"
      ∉ (((df.setCol "score" s).setCol "score_label" lb).setCol "explanation" ex).names := by
    rw [n3, n2, n1]
    simp [h4]
  have e4 := setCol_not_mem (v := fc) h4'
  rw [e4, e3, e2, e1]
  simp [List.append_assoc]

/-- C10: when weighted feature columns are absent, `score_users_rules`
adds them as zero columns to the caller's frame in place (before the copy
is taken); every pre-existing column, its values and its row order are
untouched (the mutated frame is the input followed by the new zero
columns), and the result frame is the mutated input plus exactly the four
columns score, score_label, explanation, feature_contributions. -/
theorem c10_frame_effect (lg : ℚ → ℚ) (w : List (String × ℚ)) (th : Thresholds) (df₀ : Frame)
    (hw : (w.map Prod.fst).Nodup)
    (h1 : "score" ∉ df₀.names) (h2 : "score_label" ∉ df₀.names)
    (h3 : "explanation" ∉ df₀.names) (h4 : "feature_contributions" ∉ df₀.names)
    (hw1 : "score" ∉ w.map Prod.fst) (hw2 : "score_label" ∉ w.map Prod.fst)
    (hw3 : "explanation" ∉ w.map Prod.fst) (hw4 : "feature_contributions" ∉ w.map Prod.fst) :
    (score_users_rules_frame lg w th df₀).1.cols
      = df₀.cols ++ ((w.map Prod.fst).filter (fun n => decide (n ∉ df₀.names))).map
          (fun n => (n, List.replicate df₀.nrows (Cell.num 0))) ∧
    ∃ s lb ex fc,
      (score_users_rules_frame lg w th df₀).2.cols
        = (score_users_rules_frame lg w th df₀).1.cols
          ++ [("score", s), ("score_label", lb), ("explanation", ex),
              ("feature_contributions", fc)] := by
  have hens : (score_users_rules_frame lg w th df₀).1 = ensureRequired w df₀ := rfl
  have hcols := ensureRequired_cols w df₀ hw
  have hnames : (ensureRequired w df₀).names
      = df₀.names ++ (w.map Prod.fst).filter (fun n => decide (n ∉ df₀.names)) := by
    unfold Frame.names
    rw [hcols]
    rw [List.map_append, List.map_map]
    congr 1
    have : (Prod.fst ∘ fun n => (n, List.replicate df₀.nrows (Cell.num 0)))
        = fun n : String => n := rfl
    rw [this]
    exact List.map_id _
  have hnot : ∀ n : String, n ∉ df₀.names → n ∉ w.map Prod.fst →
      n ∉ (ensureRequired w df₀).names := by
    intro n hn hnw hmem
    rw [hnames] at hmem
    rcases List.mem_append.mp hmem with hmem | hmem
    · exact hn hmem
    · exact hnw (List.mem_of_mem_filter hmem)
  constructor
  · rw [hens, hcols]
  · set rows := (List.range (ensureRequired w df₀).nrows).map
      (ensureRequired w df₀).rowAt with hrows
    set results := rows.map (score_user_row lg (computeMaxVals rows) w th) with hresults
    refine ⟨results.map (fun x => Cell.num x.score),
      results.map (fun x => Cell.str x.label),
      results.map (fun x => Cell.str x.explanation),
      results.map (fun x => Cell.obj x.contribs), ?_⟩
    have h2c : (score_users_rules_frame lg w th df₀).2
        = (((((ensureRequired w df₀).setCol "score"
              (results.map (fun x => Cell.num x.score))).setCol "score_label"
              (results.map (fun x => Cell.str x.label))).setCol "explanation"
              (results.map (fun x => Cell.str x.explanation))).setCol "feature_contributions"
              (results.map (fun x => Cell.obj x.contribs))) := by
      rw [hresults, hrows]
      rfl
    rw [h2c, hens]
    exact setCol_chain (ensureRequired w df₀) _ _ _ _
      (hnot "score" h1 hw1) (hnot "score_label" h2 hw2)
      (hnot "explanation" h3 hw3) (hnot "feature_contributions" h4 hw4)

/-- Witness for C10 at a concrete two-column frame (no weighted feature
column except page_views, none of the four result columns present). -/
theorem c10_frame_effect_witness :
    (DEFAULT_WEIGHTS.map Prod.fst).Nodup ∧
    ("score" ∉ exFrame.names ∧ "score_label" ∉ exFrame.names ∧
     "explanation" ∉ exFrame.names ∧ "feature_contributions" ∉ exFrame.names) ∧
    ("score" ∉ DEFAULT_WEIGHTS.map Prod.fst ∧ "score_label" ∉ DEFAULT_WEIGHTS.map Prod.fst ∧
     "explanation" ∉ DEFAULT_WEIGHTS.map Prod.fst ∧
     "feature_contributions" ∉ DEFAULT_WEIGHTS.map Prod.fst) ∧
    ((score_users_rules_frame id DEFAULT_WEIGHTS DEFAULT_THRESHOLDS exFrame).1.cols
       = exFrame.cols ++ ((DEFAULT_WEIGHTS.map Prod.fst).filter
           (fun n => decide (n ∉ exFrame.names))).map
           (fun n => (n, List.replicate exFrame.nrows (Cell.num 0))) ∧
     ∃ s lb ex fc,
       (score_users_rules_frame id DEFAULT_WEIGHTS DEFAULT_THRESHOLDS exFrame).2.cols
         = (score_users_rules_frame id DEFAULT_WEIGHTS DEFAULT_THRESHOLDS exFrame).1.cols
           ++ [("score", s), ("score_label", lb), ("explanation", ex),
               ("feature_contributions", fc)]) :=
  ⟨by decide, ⟨by decide, by decide, by decide, by decide⟩,
    ⟨by decide, by decide, by decide, by decide⟩,
    c10_frame_effect id DEFAULT_WEIGHTS DEFAULT_THRESHOLDS exFrame (by decide)
      (by decide) (by decide) (by decide) (by decide)
      (by decide) (by decide) (by decide) (by decide)⟩

end GestureSSE
